import Mathlib

/-!
# CloudWatch time series query execution (`pkg/tsdb/cloudwatch/time_series_query.go`)

A shallow embedding of `executeTimeSeriesQuery`: the validation of the batch, the
region fan-out through an `errgroup`, the buffered result channel, the recover
boundary of every region task, and the assembly of the final response map.

Concurrency is made explicit.  Every region task is a small state machine whose
steps are the collaborator calls and the channel sends of the Go closure; a
schedule (a list of task indices) says which task takes the next step.  A send on
a full channel is not enabled, so a schedule can leave the call unreturned.
-/

namespace CloudWatch

/-! ## Data model -/

/-- Go `error` values.  `plain` is what `fmt.Errorf` without `%w` and `errors.New`
build, `requestFailure` is a value implementing `awserr.RequestFailure`, and `wrap`
is an error whose `Unwrap` method returns `inner`. -/
inductive GoError where
  | plain (msg : String)
  | requestFailure (msg : String)
  | wrap (msg : String) (inner : GoError)
  deriving DecidableEq, Repr

/-- The `Error()` method. -/
def GoError.Error : GoError → String
  | .plain msg => msg
  | .requestFailure msg => msg
  | .wrap msg _ => msg

/-- The test `errors.As(err, &awsErr)` with `awsErr` of type `awserr.RequestFailure`:
walks the `Unwrap` chain looking for a request failure. -/
def errorsAsRequestFailure : GoError → Bool
  | .plain _ => false
  | .requestFailure _ => true
  | .wrap _ inner => errorsAsRequestFailure inner

/-- A value handed to `recover()`: either it implements `error` (the type assertion
`err.(error)` succeeds) or it does not.  A nil value, for which the test
`err != nil` of line 50 fails, sends nothing either and is covered by `other`. -/
inductive PanicValue where
  | error (theErr : GoError)
  | other (description : String)
  deriving DecidableEq, Repr

/-- The three ways a Go call can end: normal return with a nil error, normal
return with a non-nil error, or a run-time panic. -/
inductive Outcome (α : Type) where
  | ok (value : α)
  | err (e : GoError)
  | panic (v : PanicValue)

/-- Sequencing of calls, as in `x, err := f(); if err != nil { return err }`. -/
def Outcome.bind {α β : Type} (o : Outcome α) (k : α → Outcome β) : Outcome β :=
  match o with
  | .ok a => k a
  | .err e => .err e
  | .panic v => .panic v

/-- The `backend.TimeRange` of a query; instants are integers. -/
structure TimeRange where
  From : Int
  To : Int
  deriving DecidableEq, Repr

/-- The fields of `backend.DataQuery` that the function reads, and the raw query. -/
structure DataQuery where
  RefID : String
  TimeRange : TimeRange
  JSON : String
  deriving DecidableEq, Repr

/-- The request `backend.QueryDataRequest`. -/
structure QueryDataRequest where
  PluginContext : String
  Queries : List DataQuery
  deriving DecidableEq, Repr

/-- Modelled from the spec: the type `requestQuery` is declared outside this file;
the spec gives a query an identifier and a target region, the other parameters
are kept as one field. -/
structure requestQuery where
  RefId : String
  Region : String
  Params : String
  deriving DecidableEq, Repr

/-- The `backend.DataResponse` of one query: the frames (kept as names) and an
error, nil when absent. -/
structure DataResponse where
  Frames : List String
  Error : Option GoError
  deriving DecidableEq, Repr

/-- The struct `responseWrapper` (lines 14-17).  The pointer `DataResponse` is
taken to be non-nil: the function builds it itself at lines 54 and 109, and the
values of the map that the result shaper returns (line 94) are taken to be
non-nil pointers. -/
structure responseWrapper where
  DataResponse : DataResponse
  RefId : String
  deriving DecidableEq, Repr

/-- The `backend.QueryDataResponse`: `Responses` is a Go map from RefID to
response, kept as an association list with pairwise distinct keys. -/
structure QueryDataResponse where
  Responses : List (String × DataResponse)
  deriving DecidableEq, Repr

/-- The map assignment `m[k] = v`: replaces the value of an existing key, adds
the key otherwise. -/
def setResp (m : List (String × DataResponse)) (k : String) (v : DataResponse) :
    List (String × DataResponse) :=
  match m with
  | [] => [(k, v)]
  | (k0, v0) :: rest => if k0 = k then (k, v) :: rest else (k0, v0) :: setResp rest k v

/-- The map read `m[k]` with its presence flag. -/
def getResp (m : List (String × DataResponse)) (k : String) : Option DataResponse :=
  match m with
  | [] => none
  | (k0, v0) :: rest => if k0 = k then some v0 else getResp rest k

/-- The keys of a map. -/
def keysOf (m : List (String × DataResponse)) : List String :=
  m.map Prod.fst

/-- The types of the values that flow between the collaborators of one task. -/
structure Sig where
  Client : Type
  CWQueries : Type
  Input : Type
  Output : Type
  Parsed : Type

/-- The methods of `cloudWatchExecutor` that the function calls (they live outside
this file) and `strconv.Quote`, which the verb `%q` applies.  `executeRequest`
receives the errgroup context; what it sees of it is whether it is cancelled. -/
structure Collaborators (σ : Sig) where
  parseQueries : List DataQuery → Int → Int → Outcome (List (String × List requestQuery))
  getCWClient : String → String → Outcome σ.Client
  transformRequestQueriesToCloudWatchQueries : List requestQuery → Outcome σ.CWQueries
  buildMetricDataInput : Int → Int → σ.CWQueries → Outcome σ.Input
  executeRequest : Bool → σ.Client → σ.Input → Outcome σ.Output
  parseResponse : σ.Output → σ.CWQueries → Outcome σ.Parsed
  transformQueryResponsesToQueryResult :
    σ.Parsed → List requestQuery → Int → Int → Outcome (List (String × DataResponse))
  quote : String → String

/-- The calls the function makes that are visible from outside. -/
inductive Event where
  | parseQueries
  | go (region : String)
  | getCWClient (region : String)
  | transformRequestQueriesToCloudWatchQueries (region : String)
  | buildMetricDataInput (region : String)
  | executeRequest (region : String)
  | parseResponse (region : String)
  | transformQueryResponsesToQueryResult (region : String)
  deriving DecidableEq, Repr

/-! ## One region task (lines 48-99) -/

/-- Where the closure passed to `eg.Go` stands.  `emitting` is the loop of lines
92-97 with the entries of `res` still to send, `recovering` is the deferred
function of lines 49-60 holding the recovered value, `done` is the closure after
its return, with the error it returned. -/
inductive TaskState (σ : Sig) where
  | dispatched
  | clientResolved (client : σ.Client)
  | translated (client : σ.Client) (queries : σ.CWQueries)
  | requestBuilt (client : σ.Client) (queries : σ.CWQueries) (metricDataInput : σ.Input)
  | callExecuted (queries : σ.CWQueries) (mdo : σ.Output)
  | responseParsed (responses : σ.Parsed)
  | emitting (pending : List (String × DataResponse))
  | recovering (v : PanicValue)
  | done (err : Option GoError)

/-- What a finished closure returned; `none` while it is still running. -/
def TaskState.returned {σ : Sig} : TaskState σ → Option (Option GoError)
  | .done err => some err
  | _ => none

/-- Whether the closure has returned. -/
def TaskState.isDone {σ : Sig} : TaskState σ → Bool
  | .done _ => true
  | _ => false

/-- Whether the next step of the closure is a send on `resultChan`. -/
def TaskState.wantsToSend {σ : Sig} : TaskState σ → Bool
  | .emitting (_ :: _) => true
  | .recovering (.error _) => true
  | _ => false

/-- The continuation after a collaborator call: go on with the value, return the
error (`if err != nil { return err }`), or unwind into the deferred function. -/
def advance {σ : Sig} {α : Type} (o : Outcome α) (k : α → TaskState σ) : TaskState σ :=
  match o with
  | .ok a => k a
  | .err e => .done (some e)
  | .panic v => .recovering v

/-- The parameters shared by all tasks of one call: the plugin context, the
time range read from the first query, and the capacity of `resultChan`. -/
structure Shared where
  pluginContext : String
  startTime : Int
  endTime : Int
  capacity : Nat
  deriving DecidableEq, Repr

/-- One step of the closure of lines 48-99 for the region `region` with the
queries `requestQueries`.  `cancelled` tells whether `ectx` is cancelled and
`room` whether `resultChan` has a free slot.  The result is the next state and
the values sent; `none` when the closure cannot move (it has returned, or its
send blocks). -/
def stepState {σ : Sig} (env : Collaborators σ) (sh : Shared) (region : String)
    (requestQueries : List requestQuery) (cancelled room : Bool) :
    TaskState σ → Option (TaskState σ × List responseWrapper)
  | .dispatched =>
      some (advance (env.getCWClient region sh.pluginContext) .clientResolved, [])
  | .clientResolved client =>
      some (advance (env.transformRequestQueriesToCloudWatchQueries requestQueries)
        (.translated client), [])
  | .translated client queries =>
      some (advance (env.buildMetricDataInput sh.startTime sh.endTime queries)
        (.requestBuilt client queries), [])
  | .requestBuilt client queries metricDataInput =>
      some (advance (env.executeRequest cancelled client metricDataInput)
        (.callExecuted queries), [])
  | .callExecuted queries mdo =>
      some (advance (env.parseResponse mdo queries) .responseParsed, [])
  | .responseParsed responses =>
      some (advance (env.transformQueryResponsesToQueryResult responses requestQueries
        sh.startTime sh.endTime) .emitting, [])
  | .emitting [] => some (.done none, [])
  | .emitting ((refID, queryRes) :: rest) =>
      if room then some (.emitting rest, [⟨queryRes, refID⟩]) else none
  | .recovering (.error theErr) =>
      if room then some (.done none, [⟨⟨[], some theErr⟩, ""⟩]) else none
  | .recovering (.other _) => some (.done none, [])
  | .done _ => none

/-- The collaborator call a step makes, for the log. -/
def callOf {σ : Sig} (region : String) : TaskState σ → List Event
  | .dispatched => [.getCWClient region]
  | .clientResolved _ => [.transformRequestQueriesToCloudWatchQueries region]
  | .translated _ _ => [.buildMetricDataInput region]
  | .requestBuilt _ _ _ => [.executeRequest region]
  | .callExecuted _ _ => [.parseResponse region]
  | .responseParsed _ => [.transformQueryResponsesToQueryResult region]
  | _ => []

/-- What the rest of the closure does from a state when `ectx` has the given
cancellation status throughout: the entries it goes on to send, the error it
returns, or the value it panics with. -/
def outlook {σ : Sig} (env : Collaborators σ) (sh : Shared)
    (requestQueries : List requestQuery) (cancelled : Bool) (region : String) :
    TaskState σ → Outcome (List (String × DataResponse))
  | .dispatched =>
      (env.getCWClient region sh.pluginContext).bind fun client =>
      (env.transformRequestQueriesToCloudWatchQueries requestQueries).bind fun queries =>
      (env.buildMetricDataInput sh.startTime sh.endTime queries).bind fun metricDataInput =>
      (env.executeRequest cancelled client metricDataInput).bind fun mdo =>
      (env.parseResponse mdo queries).bind fun responses =>
      env.transformQueryResponsesToQueryResult responses requestQueries sh.startTime sh.endTime
  | .clientResolved client =>
      (env.transformRequestQueriesToCloudWatchQueries requestQueries).bind fun queries =>
      (env.buildMetricDataInput sh.startTime sh.endTime queries).bind fun metricDataInput =>
      (env.executeRequest cancelled client metricDataInput).bind fun mdo =>
      (env.parseResponse mdo queries).bind fun responses =>
      env.transformQueryResponsesToQueryResult responses requestQueries sh.startTime sh.endTime
  | .translated client queries =>
      (env.buildMetricDataInput sh.startTime sh.endTime queries).bind fun metricDataInput =>
      (env.executeRequest cancelled client metricDataInput).bind fun mdo =>
      (env.parseResponse mdo queries).bind fun responses =>
      env.transformQueryResponsesToQueryResult responses requestQueries sh.startTime sh.endTime
  | .requestBuilt client queries metricDataInput =>
      (env.executeRequest cancelled client metricDataInput).bind fun mdo =>
      (env.parseResponse mdo queries).bind fun responses =>
      env.transformQueryResponsesToQueryResult responses requestQueries sh.startTime sh.endTime
  | .callExecuted queries mdo =>
      (env.parseResponse mdo queries).bind fun responses =>
      env.transformQueryResponsesToQueryResult responses requestQueries sh.startTime sh.endTime
  | .responseParsed responses =>
      env.transformQueryResponsesToQueryResult responses requestQueries sh.startTime sh.endTime
  | .emitting pending => .ok pending
  | .recovering v => .panic v
  | .done none => .ok []
  | .done (some e) => .err e

/-- The body of the closure of lines 62-90 run in one go with `ectx` not
cancelled: the map `res` it goes on to send, the error it returns, or the value
it panics with. -/
def taskOutcome {σ : Sig} (env : Collaborators σ) (sh : Shared) (region : String)
    (requestQueries : List requestQuery) : Outcome (List (String × DataResponse)) :=
  outlook env sh requestQueries false region .dispatched

/-- The values a closure with the given outcome puts on `resultChan`: one tagged
result per entry of `res` (lines 92-97), one result with an empty RefId for a
recovered panic value that is an error (lines 52-57), nothing otherwise. -/
def toSend : Outcome (List (String × DataResponse)) → List responseWrapper
  | .ok res => res.map fun p => ⟨p.2, p.1⟩
  | .err _ => []
  | .panic (.error theErr) => [⟨⟨[], some theErr⟩, ""⟩]
  | .panic (.other _) => []

/-! ## The coordinator (lines 19-47 and 100-121) -/

/-- One closure started by `eg.Go`, with the variables it captured. -/
structure Task (σ : Sig) where
  region : String
  requestQueries : List requestQuery
  state : TaskState σ

/-- The state shared by the goroutines: the tasks, the buffer of `resultChan`,
the error recorded by the errgroup (`ectx` is cancelled exactly when it is set),
and the log of calls. -/
structure Config (σ : Sig) where
  tasks : List (Task σ)
  resultChan : List responseWrapper
  egErr : Option GoError
  log : List Event

/-- The errgroup records the first non-nil error a closure returns
(`errOnce.Do`). -/
def recordErr (egErr : Option GoError) : Option (Option GoError) → Option GoError
  | some (some e) => match egErr with
    | some first => some first
    | none => some e
  | _ => egErr

/-- The task with index `i` takes one step; nothing happens when there is no such
task or when it cannot move.  The return of a closure and the recording of its
error by the errgroup, which cancels `ectx`, are one step. -/
def stepTask {σ : Sig} (env : Collaborators σ) (sh : Shared) (cfg : Config σ) (i : Nat) :
    Config σ :=
  match cfg.tasks[i]? with
  | none => cfg
  | some t =>
    match stepState env sh t.region t.requestQueries cfg.egErr.isSome
        (decide (cfg.resultChan.length < sh.capacity)) t.state with
    | none => cfg
    | some (next, sent) =>
        { tasks := cfg.tasks.set i { t with state := next }
          resultChan := cfg.resultChan ++ sent
          egErr := recordErr cfg.egErr next.returned
          log := cfg.log ++ callOf t.region t.state }

/-- The tasks take steps in the order of the schedule. -/
def runSchedule {σ : Sig} (env : Collaborators σ) (sh : Shared) (cfg : Config σ)
    (schedule : List Nat) : Config σ :=
  schedule.foldl (stepTask env sh) cfg

/-- The loop of lines 45-100: one closure per entry of `requestQueriesByRegion`.
The closures are all started before the first of them moves; `eg.Go` does not
wait, and the order in which they then move is left to the schedule. -/
def spawnAll {σ : Sig} (byRegion : List (String × List requestQuery)) : Config σ :=
  { tasks := byRegion.map fun p => ⟨p.1, p.2, .dispatched⟩
    resultChan := []
    egErr := none
    log := .parseQueries :: byRegion.map fun p => .go p.1 }

/-- Whether every closure has returned, so that `eg.Wait()` returns. -/
def allDone {σ : Sig} (cfg : Config σ) : Bool :=
  cfg.tasks.all fun t => t.state.isDone

/-- The loop of lines 116-118 over the drained channel, writing into the map `m`. -/
def drainInto (m : List (String × DataResponse)) (drained : List responseWrapper) :
    List (String × DataResponse) :=
  drained.foldl (fun acc result => setResp acc result.RefId result.DataResponse) m

/-- The loop of lines 116-118 writing into the fresh map of line 21. -/
def assemble (drained : List responseWrapper) : List (String × DataResponse) :=
  drainInto [] drained

/-- The result the call delivers to its caller. -/
inductive CallResult where
  | returned (resp : Option QueryDataResponse) (err : Option GoError)
  | panicked (v : PanicValue)
  | notReturned
  deriving DecidableEq, Repr

/-- What one run of the call shows: its result, the calls it made, and the values
put on `resultChan`, in order. -/
structure Run where
  result : CallResult
  log : List Event
  resultChan : List responseWrapper
  deriving DecidableEq, Repr

/-- The synthetic result of lines 105-110. -/
def syntheticResult {σ : Sig} (env : Collaborators σ) (err : GoError) : responseWrapper :=
  ⟨⟨[], some (.plain ("metric request error: " ++ env.quote err.Error))⟩, ""⟩

/-- Lines 102-120: `eg.Wait()` and what follows it.  The call has not returned
while a closure is still running, and it never returns when the send of line 108
finds the channel full. -/
def waitAndAssemble {σ : Sig} (env : Collaborators σ) (sh : Shared) (cfg : Config σ) : Run :=
  if allDone cfg then
    match cfg.egErr with
    | some err =>
        if errorsAsRequestFailure err then
          if cfg.resultChan.length < sh.capacity then
            ⟨.returned none (some err), cfg.log, cfg.resultChan ++ [syntheticResult env err]⟩
          else ⟨.notReturned, cfg.log, cfg.resultChan⟩
        else ⟨.returned none (some err), cfg.log, cfg.resultChan⟩
    | none => ⟨.returned (some ⟨assemble cfg.resultChan⟩) none, cfg.log, cfg.resultChan⟩
  else ⟨.notReturned, cfg.log, cfg.resultChan⟩

/-- The parameters the tasks of a request share, read at lines 28-29 and 43. -/
def sharedOf (req : QueryDataRequest) (q0 : DataQuery) : Shared :=
  ⟨req.PluginContext, q0.TimeRange.From, q0.TimeRange.To, req.Queries.length⟩

/-- The function `executeTimeSeriesQuery` under a schedule of its tasks. -/
def executeTimeSeriesQuery {σ : Sig} (env : Collaborators σ) (req : QueryDataRequest)
    (schedule : List Nat) : Run :=
  match req.Queries with
  | [] => ⟨.returned none (some (.plain "request contains no queries")), [], []⟩
  | q0 :: _ =>
    if ¬ q0.TimeRange.From < q0.TimeRange.To then
      ⟨.returned none
        (some (.plain "invalid time range: start time must be before end time")), [], []⟩
    else
      match env.parseQueries req.Queries q0.TimeRange.From q0.TimeRange.To with
      | .panic v => ⟨.panicked v, [.parseQueries], []⟩
      | .err e => ⟨.returned none (some e), [.parseQueries], []⟩
      | .ok requestQueriesByRegion =>
        if requestQueriesByRegion.length = 0 then
          ⟨.returned (some ⟨[]⟩) none, [.parseQueries], []⟩
        else
          waitAndAssemble env (sharedOf req q0)
            (runSchedule env (sharedOf req q0) (spawnAll requestQueriesByRegion) schedule)

/-! ## Quantities used in the invariants -/

/-- The values a task has still to put on `resultChan` when `ectx` stays
uncancelled. -/
def remaining {σ : Sig} (env : Collaborators σ) (sh : Shared) (t : Task σ) :
    List responseWrapper :=
  toSend (outlook env sh t.requestQueries false t.region t.state)

/-- All the values the tasks of a region mapping put on `resultChan` when no
task returns an error. -/
def totalOf {σ : Sig} (env : Collaborators σ) (sh : Shared)
    (byRegion : List (String × List requestQuery)) : List responseWrapper :=
  byRegion.flatMap fun p => toSend (taskOutcome env sh p.1 p.2)

/-- No task is stopped at a send on a full channel. -/
def Roomy {σ : Sig} (sh : Shared) (cfg : Config σ) : Prop :=
  ∀ t ∈ cfg.tasks, t.state.wantsToSend = true → cfg.resultChan.length < sh.capacity

/-- The errgroup holds an error exactly when a closure returned one, and it
holds the error of such a closure. -/
def ErrRecorded {σ : Sig} (cfg : Config σ) : Prop :=
  (cfg.egErr = none → ∀ (j : Nat) (t : Task σ) (e : GoError),
    cfg.tasks[j]? = some t → t.state.returned ≠ some (some e)) ∧
  (∀ e : GoError, cfg.egErr = some e →
    ∃ (j : Nat) (t : Task σ), cfg.tasks[j]? = some t ∧ t.state.returned = some (some e))

/-- The task with index `i` has returned, if there is such a task. -/
def Settled {σ : Sig} (cfg : Config σ) (i : Nat) : Prop :=
  ∀ t, cfg.tasks[i]? = some t → t.state.isDone = true

/-- No schedule leads from `cfg` to a task stopped at a send on a full channel. -/
def NeverBlocked {σ : Sig} (env : Collaborators σ) (sh : Shared) (cfg : Config σ) : Prop :=
  ∀ schedule : List Nat, Roomy sh (runSchedule env sh cfg schedule)

/-- The errgroup holds no error and no task is on the way to returning one. -/
def Quiet {σ : Sig} (env : Collaborators σ) (sh : Shared) (cfg : Config σ) : Prop :=
  cfg.egErr = none ∧
  ∀ t ∈ cfg.tasks, ∀ e : GoError,
    outlook env sh t.requestQueries false t.region t.state ≠ .err e

/-- An upper bound on the number of values a task will still put on
`resultChan`: the entries left in the loop, one for a recovered error value, and
for a task that has not shaped its results yet the number of its queries. -/
def budget {σ : Sig} (t : Task σ) : Nat :=
  match t.state with
  | .emitting pending => pending.length
  | .recovering (.error _) => 1
  | .recovering (.other _) => 0
  | .done _ => 0
  | _ => t.requestQueries.length

/-- The slot kept for the synthetic result of line 108 once the errgroup holds an
error. -/
def reserve (egErr : Option GoError) : Nat :=
  if egErr.isSome then 1 else 0

/-- The channel, what the tasks may still send and the reserved slot fit into
the capacity, and every task belongs to a group of the region mapping. -/
def Fits {σ : Sig} (sh : Shared) (byRegion : List (String × List requestQuery))
    (cfg : Config σ) : Prop :=
  cfg.resultChan.length + (cfg.tasks.map budget).sum + reserve cfg.egErr ≤ sh.capacity ∧
  ∀ t ∈ cfg.tasks, (t.region, t.requestQueries) ∈ byRegion

/-- Only the closures of the group `pf` can return an error: every other task has
no error ahead of it whether or not `ectx` is cancelled, the tasks of `pf` have
the error `e` ahead of them as long as the errgroup holds no error, and an error
held by the errgroup is `e`. -/
def OnlyFails {σ : Sig} (env : Collaborators σ) (sh : Shared)
    (pf : String × List requestQuery) (e : GoError) (cfg : Config σ) : Prop :=
  (∀ t ∈ cfg.tasks, (t.region, t.requestQueries) = pf ∨
    ∀ (c : Bool) (e2 : GoError),
      outlook env sh t.requestQueries c t.region t.state ≠ .err e2) ∧
  (cfg.egErr = none → ∀ t ∈ cfg.tasks, (t.region, t.requestQueries) = pf →
    outlook env sh t.requestQueries false t.region t.state = .err e) ∧
  (∀ x : GoError, cfg.egErr = some x → x = e)

/-! ## Concrete requests and collaborators -/

/-- Collaborators whose intermediate values carry no information. -/
def unitSig : Sig := ⟨Unit, Unit, Unit, Unit, Unit⟩

/-- Collaborators given by a region mapping, the outcome of `getCWClient` per
region and the outcome of the result shaper per group; the other calls succeed. -/
def scriptedEnv (byRegion : Outcome (List (String × List requestQuery)))
    (client : String → Outcome Unit)
    (shape : List requestQuery → Outcome (List (String × DataResponse))) :
    Collaborators unitSig where
  parseQueries := fun _ _ _ => byRegion
  getCWClient := fun region _ => client region
  transformRequestQueriesToCloudWatchQueries := fun _ => .ok ()
  buildMetricDataInput := fun _ _ _ => .ok ()
  executeRequest := fun _ _ _ => .ok ()
  parseResponse := fun _ _ => .ok ()
  transformQueryResponsesToQueryResult := fun _ rqs _ _ => shape rqs
  quote := fun str => "<" ++ str ++ ">"

/-- A shaper that returns one entry per query of the group. -/
def shapeEach (rqs : List requestQuery) : Outcome (List (String × DataResponse)) :=
  .ok (rqs.map fun q => (q.RefId, ⟨[q.Params], none⟩))

/-- The batch of the scenario of the specification: A and B in us-east-1, C in
eu-west-1. -/
def reqABC : QueryDataRequest :=
  ⟨"ctx", [⟨"A", ⟨0, 10⟩, ""⟩, ⟨"B", ⟨0, 10⟩, ""⟩, ⟨"C", ⟨0, 10⟩, ""⟩]⟩

/-- The region mapping of the scenario. -/
def groupsABC : List (String × List requestQuery) :=
  [("us-east-1", [⟨"A", "us-east-1", "a"⟩, ⟨"B", "us-east-1", "b"⟩]),
   ("eu-west-1", [⟨"C", "eu-west-1", "c"⟩])]

/-- A request without queries. -/
def reqEmpty : QueryDataRequest := ⟨"ctx", []⟩

/-- A request whose time range ends when it starts. -/
def reqBadRange : QueryDataRequest := ⟨"ctx", [⟨"A", ⟨10, 10⟩, ""⟩]⟩

/-- The collaborators of the scenario when every call succeeds. -/
def envABC : Collaborators unitSig :=
  scriptedEnv (.ok groupsABC) (fun _ => .ok ()) shapeEach

/-- The scenario in which `getCWClient` fails for eu-west-1 with a request
failure. -/
def envThrottled : Collaborators unitSig :=
  scriptedEnv (.ok groupsABC)
    (fun region =>
      if region = "eu-west-1" then .err (.requestFailure "Throttling") else .ok ())
    shapeEach

/-- The schedule that runs the first task to its return and then gives the
second task one step. -/
def firstThenOneStep : List Nat := [0, 0, 0, 0, 0, 0, 0, 0, 0, 1]

/-- A batch of two queries, A in us-east-1 and B in eu-west-1. -/
def reqAB : QueryDataRequest := ⟨"ctx", [⟨"A", ⟨0, 10⟩, ""⟩, ⟨"B", ⟨0, 10⟩, ""⟩]⟩

/-- The region mapping of the two-query batch. -/
def groupsAB : List (String × List requestQuery) :=
  [("us-east-1", [⟨"A", "us-east-1", "a"⟩]), ("eu-west-1", [⟨"B", "eu-west-1", "b"⟩])]

/-- A batch with the single query A. -/
def reqA : QueryDataRequest := ⟨"ctx", [⟨"A", ⟨0, 10⟩, ""⟩]⟩

/-- The region mapping of the single-query batch. -/
def groupsA : List (String × List requestQuery) :=
  [("us-east-1", [⟨"A", "us-east-1", "a"⟩])]

/-- Collaborators whose `getCWClient` panics for us-east-1 with a value that is
an error; every other call succeeds. -/
def envPanicFirst (byRegion : List (String × List requestQuery)) : Collaborators unitSig :=
  scriptedEnv (.ok byRegion)
    (fun region =>
      if region = "us-east-1" then .panic (.error (.plain "runtime error: index out of range"))
      else .ok ())
    shapeEach

/-- Collaborators whose `getCWClient` panics for every region with an error
naming the region. -/
def envPanicAll (byRegion : List (String × List requestQuery)) : Collaborators unitSig :=
  scriptedEnv (.ok byRegion)
    (fun region => .panic (.error (.plain ("runtime error in " ++ region))))
    shapeEach

/-- A batch of two queries, A in us-east-1 and a query with an empty RefID in
eu-west-1. -/
def reqAE : QueryDataRequest := ⟨"ctx", [⟨"A", ⟨0, 10⟩, ""⟩, ⟨"", ⟨0, 10⟩, ""⟩]⟩

/-- The region mapping of the batch with an empty RefID. -/
def groupsAE : List (String × List requestQuery) :=
  [("us-east-1", [⟨"A", "us-east-1", "a"⟩]), ("eu-west-1", [⟨"", "eu-west-1", "e"⟩])]

/-- The schedule that runs the first task for two steps and then the second task
to its return. -/
def twoStepsThenSecond : List Nat := [0, 0, 1, 1, 1, 1, 1, 1, 1, 1, 1]

/-- The schedule that runs the second task to its return and then the first task
for two steps. -/
def secondThenTwoSteps : List Nat := [1, 1, 1, 1, 1, 1, 1, 1, 1, 0, 0]

/-- The schedule that runs the first task to its return and then the second. -/
def firstThenSecond : List Nat := [0, 0, 0, 0, 0, 0, 0, 0, 0, 1, 1, 1, 1, 1, 1, 1, 1, 1]

/-- Collaborators whose client handle is the name of its region. -/
def regionSig : Sig := ⟨String, Unit, Unit, Unit, Unit⟩

/-- The scenario of the specification in which the remote call for eu-west-1
fails with a request failure: `executeRequest` fails for the client of eu-west-1
and every other call succeeds. -/
def envCallFails : Collaborators regionSig where
  parseQueries := fun _ _ _ => .ok groupsABC
  getCWClient := fun region _ => .ok region
  transformRequestQueriesToCloudWatchQueries := fun _ => .ok ()
  buildMetricDataInput := fun _ _ _ => .ok ()
  executeRequest := fun _ (client : String) _ =>
    if client = "eu-west-1" then .err (.requestFailure "Throttling") else .ok ()
  parseResponse := fun _ _ => .ok ()
  transformQueryResponsesToQueryResult := fun _ rqs _ _ => shapeEach rqs
  quote := fun str => "<" ++ str ++ ">"

/-- The scenario in which the result shaper fails for the group of eu-west-1 with
an error that is no request failure. -/
def envShapeFails : Collaborators unitSig :=
  scriptedEnv (.ok groupsABC) (fun _ => .ok ())
    (fun rqs =>
      if rqs.any (fun q => q.Region == "eu-west-1") then .err (.plain "no frames")
      else shapeEach rqs)

/-- The schedule that runs the first task to its return and then gives the
second task six steps. -/
def firstThenSixSteps : List Nat := [0, 0, 0, 0, 0, 0, 0, 0, 0, 1, 1, 1, 1, 1, 1]

/-! # Properties -/

/-! ## The response map -/

theorem getResp_setResp_same (m : List (String × DataResponse)) (k : String)
    (v : DataResponse) : getResp (setResp m k v) k = some v := by
  induction m with
  | nil => simp [setResp, getResp]
  | cons p rest ih =>
    obtain ⟨k0, v0⟩ := p
    by_cases h : k0 = k
    · simp [setResp, getResp, h]
    · simp [setResp, getResp, h, ih]

theorem getResp_setResp_ne (m : List (String × DataResponse)) (k k2 : String)
    (v : DataResponse) (hne : k2 ≠ k) : getResp (setResp m k v) k2 = getResp m k2 := by
  induction m with
  | nil => simp [setResp, getResp, Ne.symm hne]
  | cons p rest ih =>
    obtain ⟨k0, v0⟩ := p
    by_cases h : k0 = k
    · subst h
      simp [setResp, getResp, Ne.symm hne]
    · simp [setResp, getResp, h, ih]

theorem keysOf_setResp_new (m : List (String × DataResponse)) (k : String)
    (v : DataResponse) (hk : k ∉ keysOf m) : keysOf (setResp m k v) = keysOf m ++ [k] := by
  induction m with
  | nil => simp [setResp, keysOf]
  | cons p rest ih =>
    obtain ⟨k0, v0⟩ := p
    have h0 : k0 ≠ k := by
      intro h
      apply hk
      simp [keysOf, h]
    have hr : k ∉ keysOf rest := by
      intro h
      apply hk
      simp only [keysOf, List.map_cons, List.mem_cons]
      exact Or.inr h
    have := ih hr
    simp only [keysOf] at this
    simp [setResp, keysOf, h0, this]

theorem drainInto_nil (m : List (String × DataResponse)) : drainInto m [] = m := rfl

theorem drainInto_cons (m : List (String × DataResponse)) (w : responseWrapper)
    (ws : List responseWrapper) :
    drainInto m (w :: ws) = drainInto (setResp m w.RefId w.DataResponse) ws := rfl

/-- A key that no drained result carries keeps its value. -/
theorem getResp_drainInto_absent (ws : List responseWrapper) (k : String) :
    ∀ m : List (String × DataResponse), (∀ w ∈ ws, w.RefId ≠ k) →
      getResp (drainInto m ws) k = getResp m k := by
  induction ws with
  | nil => intro m _; rfl
  | cons w rest ih =>
    intro m h
    rw [drainInto_cons, ih _ (fun x hx => h x (List.mem_cons_of_mem _ hx))]
    exact getResp_setResp_ne m w.RefId k w.DataResponse (Ne.symm (h w (List.mem_cons_self _ _)))

/-- When all drained results with the RefId of `w` carry the response of `w`,
the map holds that response under that RefId. -/
theorem getResp_drainInto_agree (ws : List responseWrapper) :
    ∀ (w : responseWrapper) (m : List (String × DataResponse)), w ∈ ws →
      (∀ x ∈ ws, x.RefId = w.RefId → x.DataResponse = w.DataResponse) →
      getResp (drainInto m ws) w.RefId = some w.DataResponse := by
  induction ws with
  | nil => intro w m h; simp at h
  | cons w0 rest ih =>
    intro w m hmem hagree
    rw [drainInto_cons]
    by_cases hex : ∃ x ∈ rest, x.RefId = w.RefId
    · obtain ⟨x, hx, hxk⟩ := hex
      have hxd : x.DataResponse = w.DataResponse := hagree x (List.mem_cons_of_mem _ hx) hxk
      have hx2 := ih x (setResp m w0.RefId w0.DataResponse) hx (by
        intro y hy hyk
        rw [hxd]
        exact hagree y (List.mem_cons_of_mem _ hy) (hyk.trans hxk))
      rw [hxk, hxd] at hx2
      exact hx2
    · have hab : ∀ x ∈ rest, x.RefId ≠ w.RefId := fun x hx hxk => hex ⟨x, hx, hxk⟩
      rw [getResp_drainInto_absent rest w.RefId _ hab]
      rcases List.mem_cons.mp hmem with h | h
      · subst h
        exact getResp_setResp_same m _ _
      · exact absurd rfl (hab w h)

/-- A value read from the map was written by a drained result or was there
before. -/
theorem getResp_drainInto_source (ws : List responseWrapper) (k : String) (v : DataResponse) :
    ∀ m : List (String × DataResponse), getResp (drainInto m ws) k = some v →
      (∃ w ∈ ws, w.RefId = k ∧ w.DataResponse = v) ∨ getResp m k = some v := by
  induction ws with
  | nil => intro m h; exact Or.inr h
  | cons w0 rest ih =>
    intro m h
    rw [drainInto_cons] at h
    rcases ih _ h with ⟨w, hw, hk, hv⟩ | h2
    · exact Or.inl ⟨w, List.mem_cons_of_mem _ hw, hk, hv⟩
    · by_cases hk : w0.RefId = k
      · subst hk
        rw [getResp_setResp_same] at h2
        exact Or.inl ⟨w0, List.mem_cons_self _ _, rfl, Option.some.inj h2⟩
      · rw [getResp_setResp_ne m w0.RefId k w0.DataResponse (Ne.symm hk)] at h2
        exact Or.inr h2

/-- With pairwise distinct RefIds the keys of the map are the RefIds of the
drained results, in the order of arrival. -/
theorem keysOf_drainInto (ws : List responseWrapper) :
    ∀ m : List (String × DataResponse),
      (keysOf m ++ ws.map fun w => w.RefId).Nodup →
      keysOf (drainInto m ws) = keysOf m ++ ws.map fun w => w.RefId := by
  induction ws with
  | nil => intro m _; simp [drainInto_nil]
  | cons w0 rest ih =>
    intro m h
    have hnew : w0.RefId ∉ keysOf m := by
      intro hin
      have := List.nodup_append.mp h
      exact this.2.2 hin (by simp)
    rw [drainInto_cons, ih, keysOf_setResp_new m _ _ hnew]
    · simp
    · rw [keysOf_setResp_new m _ _ hnew]
      simpa using h

/-! ## Steps and schedules -/

theorem stepTask_eq {σ : Sig} (env : Collaborators σ) (sh : Shared) (cfg : Config σ) (i : Nat) :
    stepTask env sh cfg i = cfg ∨
    ∃ t next sent, cfg.tasks[i]? = some t ∧
      stepState env sh t.region t.requestQueries cfg.egErr.isSome
        (decide (cfg.resultChan.length < sh.capacity)) t.state = some (next, sent) ∧
      stepTask env sh cfg i =
        { tasks := cfg.tasks.set i { t with state := next }
          resultChan := cfg.resultChan ++ sent
          egErr := recordErr cfg.egErr next.returned
          log := cfg.log ++ callOf t.region t.state } := by
  unfold stepTask
  cases ht : cfg.tasks[i]? with
  | none => exact Or.inl rfl
  | some t =>
    cases hs : stepState env sh t.region t.requestQueries cfg.egErr.isSome
        (decide (cfg.resultChan.length < sh.capacity)) t.state with
    | none => simp [hs]
    | some r =>
      obtain ⟨next, sent⟩ := r
      refine Or.inr ⟨t, next, sent, rfl, hs, ?_⟩
      simp [hs]

theorem runSchedule_nil {σ : Sig} (env : Collaborators σ) (sh : Shared) (cfg : Config σ) :
    runSchedule env sh cfg [] = cfg := rfl

theorem runSchedule_cons {σ : Sig} (env : Collaborators σ) (sh : Shared) (cfg : Config σ)
    (i : Nat) (rest : List Nat) :
    runSchedule env sh cfg (i :: rest) = runSchedule env sh (stepTask env sh cfg i) rest := rfl

theorem runSchedule_append {σ : Sig} (env : Collaborators σ) (sh : Shared) (cfg : Config σ)
    (s1 s2 : List Nat) :
    runSchedule env sh cfg (s1 ++ s2) = runSchedule env sh (runSchedule env sh cfg s1) s2 := by
  simp [runSchedule, List.foldl_append]

/-- A property kept by every step holds after every schedule. -/
theorem runSchedule_invariant {σ : Sig} (env : Collaborators σ) (sh : Shared)
    (P : Config σ → Prop) (hstep : ∀ cfg i, P cfg → P (stepTask env sh cfg i)) :
    ∀ (schedule : List Nat) (cfg : Config σ), P cfg → P (runSchedule env sh cfg schedule) := by
  intro schedule
  induction schedule with
  | nil => intro cfg h; exact h
  | cons i rest ih =>
    intro cfg h
    rw [runSchedule_cons]
    exact ih _ (hstep cfg i h)

theorem recordErr_eq_none {egErr : Option GoError} {r : Option (Option GoError)}
    (h : recordErr egErr r = none) : egErr = none ∧ ∀ e, r ≠ some (some e) := by
  cases egErr with
  | some first =>
    cases r with
    | none => simp [recordErr] at h
    | some x => cases x <;> simp [recordErr] at h
  | none =>
    refine ⟨rfl, ?_⟩
    intro e he
    subst he
    simp [recordErr] at h

theorem outlook_advance {σ : Sig} {α : Type} (env : Collaborators σ) (sh : Shared)
    (rqs : List requestQuery) (c : Bool) (region : String) (o : Outcome α)
    (k : α → TaskState σ) :
    outlook env sh rqs c region (advance o k) =
      o.bind fun a => outlook env sh rqs c region (k a) := by
  cases o <;> rfl

/-- A step without cancellation sends a first part of what the task had still
to send and leaves the rest to send. -/
theorem stepState_toSend {σ : Sig} (env : Collaborators σ) (sh : Shared) (region : String)
    (rqs : List requestQuery) (room : Bool) (s next : TaskState σ)
    (sent : List responseWrapper)
    (h : stepState env sh region rqs false room s = some (next, sent)) :
    toSend (outlook env sh rqs false region s) =
      sent ++ toSend (outlook env sh rqs false region next) := by
  cases s with
  | dispatched =>
    simp only [stepState, Option.some.injEq, Prod.mk.injEq] at h
    obtain ⟨h1, h2⟩ := h
    subst h1 h2
    rw [outlook_advance]
    rfl
  | clientResolved client =>
    simp only [stepState, Option.some.injEq, Prod.mk.injEq] at h
    obtain ⟨h1, h2⟩ := h
    subst h1 h2
    rw [outlook_advance]
    rfl
  | translated client queries =>
    simp only [stepState, Option.some.injEq, Prod.mk.injEq] at h
    obtain ⟨h1, h2⟩ := h
    subst h1 h2
    rw [outlook_advance]
    rfl
  | requestBuilt client queries metricDataInput =>
    simp only [stepState, Option.some.injEq, Prod.mk.injEq] at h
    obtain ⟨h1, h2⟩ := h
    subst h1 h2
    rw [outlook_advance]
    rfl
  | callExecuted queries mdo =>
    simp only [stepState, Option.some.injEq, Prod.mk.injEq] at h
    obtain ⟨h1, h2⟩ := h
    subst h1 h2
    rw [outlook_advance]
    rfl
  | responseParsed responses =>
    simp only [stepState, Option.some.injEq, Prod.mk.injEq] at h
    obtain ⟨h1, h2⟩ := h
    subst h1 h2
    rw [outlook_advance]
    simp only [outlook]
    cases env.transformQueryResponsesToQueryResult responses rqs sh.startTime sh.endTime <;> rfl
  | emitting pending =>
    cases pending with
    | nil =>
      simp only [stepState, Option.some.injEq, Prod.mk.injEq] at h
      obtain ⟨h1, h2⟩ := h
      subst h1 h2
      rfl
    | cons x rest =>
      obtain ⟨refID, queryRes⟩ := x
      cases room with
      | false => simp [stepState] at h
      | true =>
        simp only [stepState, if_true, Option.some.injEq, Prod.mk.injEq] at h
        obtain ⟨h1, h2⟩ := h
        subst h1 h2
        rfl
  | recovering v =>
    cases v with
    | error theErr =>
      cases room with
      | false => simp [stepState] at h
      | true =>
        simp only [stepState, if_true, Option.some.injEq, Prod.mk.injEq] at h
        obtain ⟨h1, h2⟩ := h
        subst h1 h2
        rfl
    | other d =>
      simp only [stepState, Option.some.injEq, Prod.mk.injEq] at h
      obtain ⟨h1, h2⟩ := h
      subst h1 h2
      rfl
  | done err => simp [stepState] at h

theorem flatMap_set_perm {α β : Type} (f : α → List β) (ys : List β) (t2 : α) :
    ∀ (l : List α) (i : Nat) (t : α), l[i]? = some t → f t = ys ++ f t2 →
      List.Perm (l.flatMap f) (ys ++ (l.set i t2).flatMap f) := by
  intro l
  induction l with
  | nil => intro i t h; simp at h
  | cons a rest ih =>
    intro i t h hf
    cases i with
    | zero =>
      simp only [List.getElem?_cons_zero, Option.some.injEq] at h
      subst h
      simp [hf]
    | succ j =>
      simp only [List.getElem?_cons_succ] at h
      have h1 := ih j t h hf
      simp only [List.flatMap_cons, List.set_cons_succ]
      have h2 : List.Perm (f a ++ rest.flatMap f) (f a ++ (ys ++ (rest.set j t2).flatMap f)) :=
        List.Perm.append_left _ h1
      refine h2.trans ?_
      rw [← List.append_assoc, ← List.append_assoc]
      exact List.Perm.append_right _ List.perm_append_comm

/-! ## What is on the channel -/

theorem getElem?_lt {α : Type} {l : List α} {i : Nat} {a : α} (h : l[i]? = some a) :
    i < l.length := by
  obtain ⟨hlt, _⟩ := List.getElem?_eq_some.mp h
  exact hlt

theorem stepState_not_done {σ : Sig} (env : Collaborators σ) (sh : Shared) (region : String)
    (rqs : List requestQuery) (c room : Bool) (s next : TaskState σ)
    (sent : List responseWrapper)
    (h : stepState env sh region rqs c room s = some (next, sent)) : s.returned = none := by
  cases s <;> first | rfl | simp [stepState] at h

/-- While the errgroup holds no error, the channel together with what the tasks
have still to send is a rearrangement of `total`. -/
theorem perm_step {σ : Sig} (env : Collaborators σ) (sh : Shared)
    (total : List responseWrapper) (cfg : Config σ) (i : Nat)
    (h : cfg.egErr = none →
      List.Perm (cfg.resultChan ++ cfg.tasks.flatMap (remaining env sh)) total) :
    (stepTask env sh cfg i).egErr = none →
      List.Perm ((stepTask env sh cfg i).resultChan ++
        (stepTask env sh cfg i).tasks.flatMap (remaining env sh)) total := by
  rcases stepTask_eq env sh cfg i with heq | ⟨t, next, sent, ht, hs, heq⟩
  · rw [heq]
    exact h
  · rw [heq]
    intro hnone
    obtain ⟨h0, _⟩ := recordErr_eq_none hnone
    have hp := h h0
    rw [h0] at hs
    have hsend := stepState_toSend env sh t.region t.requestQueries _ t.state next sent hs
    have hperm := flatMap_set_perm (remaining env sh) sent
      ({ t with state := next } : Task σ) cfg.tasks i t ht hsend
    refine List.Perm.trans ?_ hp
    show List.Perm (cfg.resultChan ++ sent ++ _) _
    rw [List.append_assoc]
    exact List.Perm.append_left _ hperm.symm

theorem spawnAll_remaining {σ : Sig} (env : Collaborators σ) (sh : Shared)
    (byRegion : List (String × List requestQuery)) :
    ((spawnAll byRegion : Config σ).tasks.flatMap (remaining env sh)) =
      totalOf env sh byRegion := by
  induction byRegion with
  | nil => rfl
  | cons p rest ih =>
    simp only [spawnAll, List.map_cons, List.flatMap_cons, totalOf] at ih ⊢
    rw [ih]
    rfl

theorem run_perm {σ : Sig} (env : Collaborators σ) (sh : Shared)
    (byRegion : List (String × List requestQuery)) (schedule : List Nat) :
    (runSchedule env sh (spawnAll byRegion) schedule).egErr = none →
      List.Perm ((runSchedule env sh (spawnAll byRegion) schedule).resultChan ++
        (runSchedule env sh (spawnAll byRegion) schedule).tasks.flatMap (remaining env sh))
        (totalOf env sh byRegion) := by
  apply runSchedule_invariant env sh
    (fun cfg => cfg.egErr = none →
      List.Perm (cfg.resultChan ++ cfg.tasks.flatMap (remaining env sh))
        (totalOf env sh byRegion))
  · intro cfg i h
    exact perm_step env sh _ cfg i h
  · intro _
    rw [spawnAll_remaining]
    exact List.Perm.refl _

theorem remaining_of_isDone {σ : Sig} (env : Collaborators σ) (sh : Shared) (t : Task σ)
    (h : t.state.isDone = true) : remaining env sh t = [] := by
  obtain ⟨region, rqs, state⟩ := t
  cases state with
  | done err => cases err <;> rfl
  | _ => simp [TaskState.isDone] at h

theorem flatMap_remaining_of_allDone {σ : Sig} (env : Collaborators σ) (sh : Shared)
    (cfg : Config σ) (h : allDone cfg = true) : cfg.tasks.flatMap (remaining env sh) = [] := by
  rw [List.flatMap_eq_nil_iff]
  intro t ht
  apply remaining_of_isDone
  simp only [allDone, List.all_eq_true] at h
  exact h t ht

/-- When every closure has returned without an error, the channel holds a
rearrangement of what the closures had to send. -/
theorem run_perm_final {σ : Sig} (env : Collaborators σ) (sh : Shared)
    (byRegion : List (String × List requestQuery)) (schedule : List Nat)
    (hdone : allDone (runSchedule env sh (spawnAll byRegion) schedule) = true)
    (hnone : (runSchedule env sh (spawnAll byRegion) schedule).egErr = none) :
    List.Perm (runSchedule env sh (spawnAll byRegion) schedule).resultChan
      (totalOf env sh byRegion) := by
  have h := run_perm env sh byRegion schedule hnone
  rw [flatMap_remaining_of_allDone env sh _ hdone, List.append_nil] at h
  exact h

/-! ## The error the errgroup records -/

theorem errRecorded_step {σ : Sig} (env : Collaborators σ) (sh : Shared) (cfg : Config σ)
    (i : Nat) (h : ErrRecorded cfg) : ErrRecorded (stepTask env sh cfg i) := by
  rcases stepTask_eq env sh cfg i with heq | ⟨t, next, sent, ht, hs, heq⟩
  · rw [heq]
    exact h
  · rw [heq]
    have hlt : i < cfg.tasks.length := getElem?_lt ht
    have hrun : t.state.returned = none := stepState_not_done env sh _ _ _ _ _ _ _ hs
    unfold ErrRecorded at h ⊢
    constructor
    · intro hnone j t2 e hj
      obtain ⟨h0, hr⟩ := recordErr_eq_none hnone
      simp only [List.getElem?_set] at hj
      by_cases hij : i = j
      · simp only [hij, if_true] at hj
        split at hj
        · cases hj
          exact hr e
        · cases hj
      · simp only [hij, if_false] at hj
        exact h.1 h0 j t2 e hj
    · intro e he
      simp only at he
      cases hold : cfg.egErr with
      | some first =>
        rw [hold] at he
        have hfe : first = e := by
          cases hr : next.returned with
          | none => rw [hr] at he; simpa [recordErr] using he
          | some x =>
            rw [hr] at he
            cases x <;> simpa [recordErr] using he
        subst hfe
        obtain ⟨j, t2, hj, hret⟩ := h.2 first hold
        have hij : i ≠ j := by
          intro hij
          subst hij
          rw [ht] at hj
          cases hj
          rw [hrun] at hret
          cases hret
        exact ⟨j, t2, by simp only [List.getElem?_set, hij, if_false]; exact hj, hret⟩
      | none =>
        rw [hold] at he
        have hr : next.returned = some (some e) := by
          cases hr : next.returned with
          | none => rw [hr] at he; simp [recordErr] at he
          | some x =>
            rw [hr] at he
            cases x with
            | none => simp [recordErr] at he
            | some e2 =>
              simp only [recordErr, Option.some.injEq] at he
              rw [he]
        exact ⟨i, { t with state := next }, by simp [List.getElem?_set, hlt], hr⟩

theorem errRecorded_spawnAll {σ : Sig} (byRegion : List (String × List requestQuery)) :
    ErrRecorded (spawnAll byRegion : Config σ) := by
  unfold ErrRecorded
  constructor
  · intro _ j t e hj
    simp only [spawnAll, List.getElem?_map] at hj
    cases hb : byRegion[j]? with
    | none => rw [hb] at hj; cases hj
    | some p =>
      rw [hb] at hj
      cases hj
      simp [TaskState.returned]
  · intro e he
    cases he

theorem errRecorded_run {σ : Sig} (env : Collaborators σ) (sh : Shared)
    (byRegion : List (String × List requestQuery)) (schedule : List Nat) :
    ErrRecorded (runSchedule env sh (spawnAll byRegion) schedule) :=
  runSchedule_invariant env sh ErrRecorded (fun cfg i h => errRecorded_step env sh cfg i h)
    schedule _ (errRecorded_spawnAll byRegion)

/-! ## Every task can finish when no send blocks -/

theorem neverBlocked_step {σ : Sig} (env : Collaborators σ) (sh : Shared) (cfg : Config σ)
    (i : Nat) (h : NeverBlocked env sh cfg) : NeverBlocked env sh (stepTask env sh cfg i) :=
  fun schedule => h (i :: schedule)

theorem neverBlocked_run {σ : Sig} (env : Collaborators σ) (sh : Shared) (cfg : Config σ)
    (s1 : List Nat) (h : NeverBlocked env sh cfg) :
    NeverBlocked env sh (runSchedule env sh cfg s1) := by
  intro s2
  rw [← runSchedule_append]
  exact h (s1 ++ s2)

theorem stepTask_task {σ : Sig} (env : Collaborators σ) (sh : Shared) (cfg : Config σ)
    (i : Nat) (t : Task σ) (next : TaskState σ) (sent : List responseWrapper)
    (ht : cfg.tasks[i]? = some t)
    (hs : stepState env sh t.region t.requestQueries cfg.egErr.isSome
      (decide (cfg.resultChan.length < sh.capacity)) t.state = some (next, sent)) :
    (stepTask env sh cfg i).tasks[i]? = some ⟨t.region, t.requestQueries, next⟩ := by
  have hlt : i < cfg.tasks.length := getElem?_lt ht
  unfold stepTask
  simp only [ht, hs]
  simp [List.getElem?_set, hlt]

theorem settle_step {σ : Sig} (env : Collaborators σ) (sh : Shared) (cfg : Config σ)
    (i : Nat)
    (h : ∃ n, Settled (runSchedule env sh (stepTask env sh cfg i) (List.replicate n i)) i) :
    ∃ n, Settled (runSchedule env sh cfg (List.replicate n i)) i := by
  obtain ⟨n, hn⟩ := h
  exact ⟨n + 1, by rw [List.replicate_succ, runSchedule_cons]; exact hn⟩

theorem settle_done {σ : Sig} (env : Collaborators σ) (sh : Shared) (i : Nat)
    (cfg : Config σ) (t : Task σ) (err : Option GoError)
    (ht : cfg.tasks[i]? = some t) (hst : t.state = .done err) :
    ∃ n, Settled (runSchedule env sh cfg (List.replicate n i)) i := by
  refine ⟨0, ?_⟩
  intro t2 ht2
  rw [List.replicate_zero, runSchedule_nil, ht] at ht2
  cases ht2
  rw [hst]
  rfl

theorem settle_recovering {σ : Sig} (env : Collaborators σ) (sh : Shared) (i : Nat)
    (cfg : Config σ) (t : Task σ) (v : PanicValue) (hnb : NeverBlocked env sh cfg)
    (ht : cfg.tasks[i]? = some t) (hst : t.state = .recovering v) :
    ∃ n, Settled (runSchedule env sh cfg (List.replicate n i)) i := by
  apply settle_step
  cases v with
  | error theErr =>
    have hroom : cfg.resultChan.length < sh.capacity :=
      hnb [] t (List.getElem?_mem ht) (by rw [hst]; rfl)
    have hs : stepState env sh t.region t.requestQueries cfg.egErr.isSome
        (decide (cfg.resultChan.length < sh.capacity)) t.state =
        some (.done none, [⟨⟨[], some theErr⟩, ""⟩]) := by
      rw [hst]
      simp [stepState, hroom]
    exact settle_done env sh i _ _ none (stepTask_task env sh cfg i t _ _ ht hs) rfl
  | other d =>
    have hs : stepState env sh t.region t.requestQueries cfg.egErr.isSome
        (decide (cfg.resultChan.length < sh.capacity)) t.state = some (.done none, []) := by
      rw [hst]
      rfl
    exact settle_done env sh i _ _ none (stepTask_task env sh cfg i t _ _ ht hs) rfl

theorem settle_emitting {σ : Sig} (env : Collaborators σ) (sh : Shared) (i : Nat)
    (pending : List (String × DataResponse)) :
    ∀ (cfg : Config σ) (t : Task σ), NeverBlocked env sh cfg → cfg.tasks[i]? = some t →
      t.state = .emitting pending →
      ∃ n, Settled (runSchedule env sh cfg (List.replicate n i)) i := by
  induction pending with
  | nil =>
    intro cfg t _ ht hst
    apply settle_step
    have hs : stepState env sh t.region t.requestQueries cfg.egErr.isSome
        (decide (cfg.resultChan.length < sh.capacity)) t.state = some (.done none, []) := by
      rw [hst]
      rfl
    exact settle_done env sh i _ _ none (stepTask_task env sh cfg i t _ _ ht hs) rfl
  | cons x rest ih =>
    intro cfg t hnb ht hst
    apply settle_step
    obtain ⟨refID, queryRes⟩ := x
    have hroom : cfg.resultChan.length < sh.capacity :=
      hnb [] t (List.getElem?_mem ht) (by rw [hst]; rfl)
    have hs : stepState env sh t.region t.requestQueries cfg.egErr.isSome
        (decide (cfg.resultChan.length < sh.capacity)) t.state =
        some (.emitting rest, [⟨queryRes, refID⟩]) := by
      rw [hst]
      simp [stepState, hroom]
    exact ih _ _ (neverBlocked_step env sh cfg i hnb)
      (stepTask_task env sh cfg i t _ _ ht hs) rfl

theorem settle_advance {σ : Sig} {α : Type} (env : Collaborators σ) (sh : Shared) (i : Nat)
    (o : Outcome α) (k : α → TaskState σ)
    (hk : ∀ (a : α) (cfg : Config σ) (t : Task σ), NeverBlocked env sh cfg →
      cfg.tasks[i]? = some t → t.state = k a →
      ∃ n, Settled (runSchedule env sh cfg (List.replicate n i)) i) :
    ∀ (cfg : Config σ) (t : Task σ), NeverBlocked env sh cfg → cfg.tasks[i]? = some t →
      t.state = advance o k →
      ∃ n, Settled (runSchedule env sh cfg (List.replicate n i)) i := by
  intro cfg t hnb ht hst
  cases o with
  | ok a => exact hk a cfg t hnb ht hst
  | err e => exact settle_done env sh i cfg t (some e) ht hst
  | panic v => exact settle_recovering env sh i cfg t v hnb ht hst

theorem settle_responseParsed {σ : Sig} (env : Collaborators σ) (sh : Shared) (i : Nat)
    (responses : σ.Parsed) (cfg : Config σ) (t : Task σ) (hnb : NeverBlocked env sh cfg)
    (ht : cfg.tasks[i]? = some t) (hst : t.state = .responseParsed responses) :
    ∃ n, Settled (runSchedule env sh cfg (List.replicate n i)) i := by
  apply settle_step
  have hs : stepState env sh t.region t.requestQueries cfg.egErr.isSome
      (decide (cfg.resultChan.length < sh.capacity)) t.state = 
      some (advance (env.transformQueryResponsesToQueryResult responses t.requestQueries
        sh.startTime sh.endTime) .emitting, []) := by
    rw [hst]
    rfl
  exact settle_advance env sh i _ _ (fun a => settle_emitting env sh i a) _ _
    (neverBlocked_step env sh cfg i hnb) (stepTask_task env sh cfg i t _ _ ht hs) rfl

theorem settle_callExecuted {σ : Sig} (env : Collaborators σ) (sh : Shared) (i : Nat)
    (queries : σ.CWQueries) (mdo : σ.Output) (cfg : Config σ) (t : Task σ)
    (hnb : NeverBlocked env sh cfg)
    (ht : cfg.tasks[i]? = some t) (hst : t.state = .callExecuted queries mdo) :
    ∃ n, Settled (runSchedule env sh cfg (List.replicate n i)) i := by
  apply settle_step
  have hs : stepState env sh t.region t.requestQueries cfg.egErr.isSome
      (decide (cfg.resultChan.length < sh.capacity)) t.state = 
      some (advance (env.parseResponse mdo queries) .responseParsed, []) := by
    rw [hst]
    rfl
  exact settle_advance env sh i _ _ (fun a => settle_responseParsed env sh i a) _ _
    (neverBlocked_step env sh cfg i hnb) (stepTask_task env sh cfg i t _ _ ht hs) rfl

theorem settle_requestBuilt {σ : Sig} (env : Collaborators σ) (sh : Shared) (i : Nat)
    (client : σ.Client) (queries : σ.CWQueries) (input : σ.Input) (cfg : Config σ)
    (t : Task σ) (hnb : NeverBlocked env sh cfg)
    (ht : cfg.tasks[i]? = some t) (hst : t.state = .requestBuilt client queries input) :
    ∃ n, Settled (runSchedule env sh cfg (List.replicate n i)) i := by
  apply settle_step
  have hs : stepState env sh t.region t.requestQueries cfg.egErr.isSome
      (decide (cfg.resultChan.length < sh.capacity)) t.state = 
      some (advance (env.executeRequest cfg.egErr.isSome client input)
        (.callExecuted queries), []) := by
    rw [hst]
    rfl
  exact settle_advance env sh i _ _ (fun a => settle_callExecuted env sh i queries a) _ _
    (neverBlocked_step env sh cfg i hnb) (stepTask_task env sh cfg i t _ _ ht hs) rfl

theorem settle_translated {σ : Sig} (env : Collaborators σ) (sh : Shared) (i : Nat)
    (client : σ.Client) (queries : σ.CWQueries) (cfg : Config σ)
    (t : Task σ) (hnb : NeverBlocked env sh cfg)
    (ht : cfg.tasks[i]? = some t) (hst : t.state = .translated client queries) :
    ∃ n, Settled (runSchedule env sh cfg (List.replicate n i)) i := by
  apply settle_step
  have hs : stepState env sh t.region t.requestQueries cfg.egErr.isSome
      (decide (cfg.resultChan.length < sh.capacity)) t.state = 
      some (advance (env.buildMetricDataInput sh.startTime sh.endTime queries)
        (.requestBuilt client queries), []) := by
    rw [hst]
    rfl
  exact settle_advance env sh i _ _
    (fun a => settle_requestBuilt env sh i client queries a) _ _
    (neverBlocked_step env sh cfg i hnb) (stepTask_task env sh cfg i t _ _ ht hs) rfl

theorem settle_clientResolved {σ : Sig} (env : Collaborators σ) (sh : Shared) (i : Nat)
    (client : σ.Client) (cfg : Config σ)
    (t : Task σ) (hnb : NeverBlocked env sh cfg)
    (ht : cfg.tasks[i]? = some t) (hst : t.state = .clientResolved client) :
    ∃ n, Settled (runSchedule env sh cfg (List.replicate n i)) i := by
  apply settle_step
  have hs : stepState env sh t.region t.requestQueries cfg.egErr.isSome
      (decide (cfg.resultChan.length < sh.capacity)) t.state = 
      some (advance (env.transformRequestQueriesToCloudWatchQueries t.requestQueries)
        (.translated client), []) := by
    rw [hst]
    rfl
  exact settle_advance env sh i _ _ (fun a => settle_translated env sh i client a) _ _
    (neverBlocked_step env sh cfg i hnb) (stepTask_task env sh cfg i t _ _ ht hs) rfl

theorem settle_dispatched {σ : Sig} (env : Collaborators σ) (sh : Shared) (i : Nat)
    (cfg : Config σ) (t : Task σ) (hnb : NeverBlocked env sh cfg)
    (ht : cfg.tasks[i]? = some t) (hst : t.state = .dispatched) :
    ∃ n, Settled (runSchedule env sh cfg (List.replicate n i)) i := by
  apply settle_step
  have hs : stepState env sh t.region t.requestQueries cfg.egErr.isSome
      (decide (cfg.resultChan.length < sh.capacity)) t.state = 
      some (advance (env.getCWClient t.region sh.pluginContext) .clientResolved, []) := by
    rw [hst]
    rfl
  exact settle_advance env sh i _ _ (fun a => settle_clientResolved env sh i a) _ _
    (neverBlocked_step env sh cfg i hnb) (stepTask_task env sh cfg i t _ _ ht hs) rfl

/-- A task that is never blocked returns after finitely many of its own steps. -/
theorem finish_one {σ : Sig} (env : Collaborators σ) (sh : Shared) (i : Nat)
    (cfg : Config σ) (hnb : NeverBlocked env sh cfg) :
    ∃ n, Settled (runSchedule env sh cfg (List.replicate n i)) i := by
  cases ht : cfg.tasks[i]? with
  | none =>
    refine ⟨0, ?_⟩
    intro t2 ht2
    rw [List.replicate_zero, runSchedule_nil, ht] at ht2
    cases ht2
  | some t =>
    cases hst : t.state with
    | dispatched => exact settle_dispatched env sh i cfg t hnb ht hst
    | clientResolved c => exact settle_clientResolved env sh i c cfg t hnb ht hst
    | translated c q => exact settle_translated env sh i c q cfg t hnb ht hst
    | requestBuilt c q inp => exact settle_requestBuilt env sh i c q inp cfg t hnb ht hst
    | callExecuted q mdo => exact settle_callExecuted env sh i q mdo cfg t hnb ht hst
    | responseParsed r => exact settle_responseParsed env sh i r cfg t hnb ht hst
    | emitting p => exact settle_emitting env sh i p cfg t hnb ht hst
    | recovering v => exact settle_recovering env sh i cfg t v hnb ht hst
    | done e => exact settle_done env sh i cfg t e ht hst

theorem isDone_returned {σ : Sig} (s : TaskState σ) (h : s.isDone = true) :
    s.returned ≠ none := by
  cases s <;> simp [TaskState.isDone, TaskState.returned] at h ⊢

theorem settled_step {σ : Sig} (env : Collaborators σ) (sh : Shared) (j : Nat)
    (cfg : Config σ) (i : Nat) (h : Settled cfg j) : Settled (stepTask env sh cfg i) j := by
  rcases stepTask_eq env sh cfg i with heq | ⟨t, next, sent, ht, hs, heq⟩
  · rw [heq]
    exact h
  · rw [heq]
    intro t2 ht2
    simp only [List.getElem?_set] at ht2
    by_cases hij : i = j
    · subst hij
      exact absurd (stepState_not_done env sh _ _ _ _ _ _ _ hs) (isDone_returned _ (h t ht))
    · simp only [hij, if_false] at ht2
      exact h t2 ht2

theorem settled_run {σ : Sig} (env : Collaborators σ) (sh : Shared) (j : Nat)
    (schedule : List Nat) (cfg : Config σ) (h : Settled cfg j) :
    Settled (runSchedule env sh cfg schedule) j :=
  runSchedule_invariant env sh (fun c => Settled c j)
    (fun c i hc => settled_step env sh j c i hc) schedule cfg h

theorem length_step {σ : Sig} (env : Collaborators σ) (sh : Shared) (cfg : Config σ)
    (i : Nat) : (stepTask env sh cfg i).tasks.length = cfg.tasks.length := by
  rcases stepTask_eq env sh cfg i with heq | ⟨t, next, sent, _, _, heq⟩
  · rw [heq]
  · rw [heq]
    simp

theorem length_run {σ : Sig} (env : Collaborators σ) (sh : Shared) (schedule : List Nat)
    (cfg : Config σ) : (runSchedule env sh cfg schedule).tasks.length = cfg.tasks.length := by
  induction schedule generalizing cfg with
  | nil => rfl
  | cons i rest ih => rw [runSchedule_cons, ih, length_step]

theorem finish_upto {σ : Sig} (env : Collaborators σ) (sh : Shared) (cfg : Config σ)
    (hnb : NeverBlocked env sh cfg) (k : Nat) :
    ∃ schedule : List Nat, ∀ j, j < k → Settled (runSchedule env sh cfg schedule) j := by
  induction k with
  | zero => exact ⟨[], fun j hj => absurd hj (Nat.not_lt_zero j)⟩
  | succ k ih =>
    obtain ⟨s1, h1⟩ := ih
    obtain ⟨n, hn⟩ := finish_one env sh k _ (neverBlocked_run env sh cfg s1 hnb)
    refine ⟨s1 ++ List.replicate n k, ?_⟩
    intro j hj
    rw [runSchedule_append]
    rcases Nat.lt_succ_iff_lt_or_eq.mp hj with hlt | heq
    · exact settled_run env sh j _ _ (h1 j hlt)
    · rw [heq]
      exact hn

/-- When no send can block, some schedule lets every closure return. -/
theorem finish_all {σ : Sig} (env : Collaborators σ) (sh : Shared) (cfg : Config σ)
    (hnb : NeverBlocked env sh cfg) :
    ∃ schedule : List Nat, allDone (runSchedule env sh cfg schedule) = true := by
  obtain ⟨s1, h1⟩ := finish_upto env sh cfg hnb cfg.tasks.length
  refine ⟨s1, ?_⟩
  simp only [allDone, List.all_eq_true]
  intro t ht
  obtain ⟨j, hj⟩ := List.mem_iff_getElem?.mp ht
  have hlt : j < cfg.tasks.length := by
    rw [← length_run env sh s1 cfg]
    exact getElem?_lt hj
  exact h1 j hlt t hj

/-! ## Runs in which no closure returns an error -/

theorem stepState_outlook {σ : Sig} (env : Collaborators σ) (sh : Shared) (region : String)
    (rqs : List requestQuery) (room : Bool) (s next : TaskState σ)
    (sent : List responseWrapper)
    (h : stepState env sh region rqs false room s = some (next, sent)) :
    outlook env sh rqs false region next = outlook env sh rqs false region s ∨
      ∃ l, outlook env sh rqs false region next = .ok l := by
  cases s with
  | emitting pending =>
    cases pending with
    | nil =>
      simp only [stepState, Option.some.injEq, Prod.mk.injEq] at h
      exact Or.inr ⟨[], by rw [← h.1]; rfl⟩
    | cons x rest =>
      cases room with
      | false => simp [stepState] at h
      | true =>
        simp only [stepState, if_true, Option.some.injEq, Prod.mk.injEq] at h
        exact Or.inr ⟨rest, by rw [← h.1]; rfl⟩
  | recovering v =>
    cases v with
    | error theErr =>
      cases room with
      | false => simp [stepState] at h
      | true =>
        simp only [stepState, if_true, Option.some.injEq, Prod.mk.injEq] at h
        exact Or.inr ⟨[], by rw [← h.1]; rfl⟩
    | other d =>
      simp only [stepState, Option.some.injEq, Prod.mk.injEq] at h
      exact Or.inr ⟨[], by rw [← h.1]; rfl⟩
  | done err => simp [stepState] at h
  | responseParsed responses =>
    simp only [stepState, Option.some.injEq, Prod.mk.injEq] at h
    left
    rw [← h.1, outlook_advance]
    simp only [outlook]
    cases env.transformQueryResponsesToQueryResult responses rqs sh.startTime sh.endTime <;> rfl
  | _ =>
    simp only [stepState, Option.some.injEq, Prod.mk.injEq] at h
    left
    rw [← h.1, outlook_advance]
    rfl

theorem outlook_of_returned {σ : Sig} (env : Collaborators σ) (sh : Shared) (region : String)
    (rqs : List requestQuery) (c : Bool) (s : TaskState σ) (e : GoError)
    (h : s.returned = some (some e)) : outlook env sh rqs c region s = .err e := by
  cases s with
  | done err =>
    simp only [TaskState.returned, Option.some.injEq] at h
    subst h
    rfl
  | _ => simp [TaskState.returned] at h

theorem recordErr_none_of_not_err (r : Option (Option GoError))
    (h : ∀ e, r ≠ some (some e)) : recordErr none r = none := by
  cases r with
  | none => rfl
  | some x =>
    cases x with
    | none => rfl
    | some e => exact absurd rfl (h e)

theorem quiet_step {σ : Sig} (env : Collaborators σ) (sh : Shared) (cfg : Config σ)
    (i : Nat) (h : Quiet env sh cfg) : Quiet env sh (stepTask env sh cfg i) := by
  rcases stepTask_eq env sh cfg i with heq | ⟨t, next, sent, ht, hs, heq⟩
  · rw [heq]
    exact h
  · rw [heq]
    obtain ⟨h0, htasks⟩ := h
    rw [h0] at hs
    have hold := htasks t (List.getElem?_mem ht)
    have hnext : ∀ e : GoError,
        outlook env sh t.requestQueries false t.region next ≠ .err e := by
      intro e he
      rcases stepState_outlook env sh _ _ _ _ _ _ hs with h1 | ⟨l, h1⟩
      · rw [h1] at he
        exact hold e he
      · rw [h1] at he
        cases he
    refine ⟨?_, ?_⟩
    · show recordErr cfg.egErr next.returned = none
      rw [h0]
      apply recordErr_none_of_not_err
      intro e he
      exact hnext e (outlook_of_returned env sh _ _ _ _ _ he)
    · intro t2 ht2
      rcases List.mem_or_eq_of_mem_set ht2 with hmem | heq2
      · exact htasks t2 hmem
      · rw [heq2]
        exact hnext

theorem quiet_spawnAll {σ : Sig} (env : Collaborators σ) (sh : Shared)
    (byRegion : List (String × List requestQuery))
    (h : ∀ p ∈ byRegion, ∀ e : GoError, taskOutcome env sh p.1 p.2 ≠ .err e) :
    Quiet env sh (spawnAll byRegion) := by
  refine ⟨rfl, ?_⟩
  intro t ht
  simp only [spawnAll, List.mem_map] at ht
  obtain ⟨p, hp, rfl⟩ := ht
  exact h p hp

theorem quiet_run {σ : Sig} (env : Collaborators σ) (sh : Shared)
    (byRegion : List (String × List requestQuery))
    (h : ∀ p ∈ byRegion, ∀ e : GoError, taskOutcome env sh p.1 p.2 ≠ .err e)
    (schedule : List Nat) :
    Quiet env sh (runSchedule env sh (spawnAll byRegion) schedule) :=
  runSchedule_invariant env sh (Quiet env sh) (fun cfg i hc => quiet_step env sh cfg i hc)
    schedule _ (quiet_spawnAll env sh byRegion h)

theorem length_le_flatMap {α β : Type} (f : α → List β) (l : List α) (a : α) (h : a ∈ l) :
    (f a).length ≤ (l.flatMap f).length := by
  induction l with
  | nil => simp at h
  | cons b rest ih =>
    simp only [List.flatMap_cons, List.length_append]
    rcases List.mem_cons.mp h with heq | hmem
    · subst heq
      omega
    · have := ih hmem
      omega

theorem remaining_pos {σ : Sig} (env : Collaborators σ) (sh : Shared) (t : Task σ)
    (h : t.state.wantsToSend = true) : 0 < (remaining env sh t).length := by
  obtain ⟨region, rqs, state⟩ := t
  cases state with
  | emitting pending =>
    cases pending with
    | nil => simp [TaskState.wantsToSend] at h
    | cons x rest => simp [remaining, outlook, toSend]
  | recovering v =>
    cases v with
    | error theErr => simp [remaining, outlook, toSend]
    | other d => simp [TaskState.wantsToSend] at h
  | _ => simp [TaskState.wantsToSend] at h

/-- When no closure returns an error and all the results fit into the channel,
no send ever blocks. -/
theorem neverBlocked_of_quiet {σ : Sig} (env : Collaborators σ) (sh : Shared)
    (byRegion : List (String × List requestQuery))
    (h : ∀ p ∈ byRegion, ∀ e : GoError, taskOutcome env sh p.1 p.2 ≠ .err e)
    (hfit : (totalOf env sh byRegion).length ≤ sh.capacity) :
    NeverBlocked env sh (spawnAll byRegion) := by
  intro schedule t ht hw
  have hq := quiet_run env sh byRegion h schedule
  have hp := (run_perm env sh byRegion schedule hq.1).length_eq
  have h1 := length_le_flatMap (remaining env sh) _ t ht
  have h2 := remaining_pos env sh t hw
  rw [List.length_append] at hp
  omega

/-! ## The coordinator after `eg.Wait()` -/

theorem execute_eq {σ : Sig} (env : Collaborators σ) (req : QueryDataRequest)
    (q0 : DataQuery) (rest : List DataQuery) (byRegion : List (String × List requestQuery))
    (schedule : List Nat) (hq : req.Queries = q0 :: rest)
    (hvalid : q0.TimeRange.From < q0.TimeRange.To)
    (hparse : env.parseQueries req.Queries q0.TimeRange.From q0.TimeRange.To = .ok byRegion)
    (hne : byRegion ≠ []) :
    executeTimeSeriesQuery env req schedule =
      waitAndAssemble env (sharedOf req q0)
        (runSchedule env (sharedOf req q0) (spawnAll byRegion) schedule) := by
  have hlen : byRegion.length ≠ 0 := by
    intro h0
    exact hne (List.length_eq_zero.mp h0)
  unfold executeTimeSeriesQuery
  split
  · rename_i h
    rw [hq] at h
    cases h
  · rename_i q1 rest1 h
    rw [hq] at h
    cases h
    simp only [not_lt, if_neg (not_le.mpr hvalid), hparse, if_neg hlen]

theorem wait_returned {σ : Sig} (env : Collaborators σ) (sh : Shared) (cfg : Config σ)
    (resp : Option QueryDataResponse) (err : Option GoError)
    (h : (waitAndAssemble env sh cfg).result = .returned resp err) :
    allDone cfg = true ∧
      ((cfg.egErr = none ∧ resp = some ⟨assemble cfg.resultChan⟩ ∧ err = none) ∨
       (∃ e, cfg.egErr = some e ∧ resp = none ∧ err = some e)) := by
  unfold waitAndAssemble at h
  cases hd : allDone cfg with
  | false => simp [hd] at h
  | true =>
    refine ⟨rfl, ?_⟩
    cases he : cfg.egErr with
    | none =>
      simp only [hd, he, if_true, CallResult.returned.injEq] at h
      exact Or.inl ⟨rfl, h.1.symm, h.2.symm⟩
    | some e =>
      right
      simp only [hd, he, if_true] at h
      refine ⟨e, rfl, ?_⟩
      split at h
      · split at h
        · simp only [CallResult.returned.injEq] at h
          exact ⟨h.1.symm, h.2.symm⟩
        · cases h
      · simp only [CallResult.returned.injEq] at h
        exact ⟨h.1.symm, h.2.symm⟩

theorem wait_success {σ : Sig} (env : Collaborators σ) (sh : Shared) (cfg : Config σ)
    (hd : allDone cfg = true) (he : cfg.egErr = none) :
    waitAndAssemble env sh cfg =
      ⟨.returned (some ⟨assemble cfg.resultChan⟩) none, cfg.log, cfg.resultChan⟩ := by
  simp [waitAndAssemble, hd, he]

theorem log_head_run {σ : Sig} (env : Collaborators σ) (sh : Shared)
    (byRegion : List (String × List requestQuery)) (schedule : List Nat) :
    (runSchedule env sh (spawnAll byRegion) schedule).log.head? = some .parseQueries := by
  apply runSchedule_invariant env sh (fun cfg => cfg.log.head? = some .parseQueries)
  · intro cfg i h
    rcases stepTask_eq env sh cfg i with heq | ⟨t, next, sent, _, _, heq⟩
    · rw [heq]
      exact h
    · rw [heq]
      show (cfg.log ++ _).head? = _
      cases hl : cfg.log with
      | nil => rw [hl] at h; cases h
      | cons a l =>
        rw [hl] at h
        simpa using h
  · rfl

theorem wait_log {σ : Sig} (env : Collaborators σ) (sh : Shared) (cfg : Config σ) :
    (waitAndAssemble env sh cfg).log = cfg.log := by
  unfold waitAndAssemble
  split
  · split
    · split
      · split <;> rfl
      · rfl
    · rfl
  · rfl

/-! ## Validation and the empty region mapping -/

/-- C3: an empty batch and a batch whose time range, read from the first query,
does not start strictly before it ends are rejected with an error and a nil
response before anything is called (the log of calls is empty: no `parseQueries`,
no task, no collaborator); a non-empty batch whose start is strictly before its
end passes the check, that is, `parseQueries` is the first call made. -/
theorem validation_before_partitioning {σ : Sig} (env : Collaborators σ)
    (req : QueryDataRequest) (schedule : List Nat) :
    (req.Queries = [] →
      executeTimeSeriesQuery env req schedule =
        ⟨.returned none (some (.plain "request contains no queries")), [], []⟩) ∧
    (∀ q0 rest, req.Queries = q0 :: rest → ¬ q0.TimeRange.From < q0.TimeRange.To →
      executeTimeSeriesQuery env req schedule =
        ⟨.returned none
          (some (.plain "invalid time range: start time must be before end time")),
          [], []⟩) ∧
    (∀ q0 rest, req.Queries = q0 :: rest → q0.TimeRange.From < q0.TimeRange.To →
      (executeTimeSeriesQuery env req schedule).log.head? = some .parseQueries) := by
  refine ⟨?_, ?_, ?_⟩
  · intro h
    unfold executeTimeSeriesQuery
    rw [h]
  · intro q0 rest h hbad
    unfold executeTimeSeriesQuery
    split
    · rename_i h2
      rw [h] at h2
      cases h2
    · rename_i q1 rest1 h2
      rw [h] at h2
      cases h2
      rw [if_pos hbad]
  · intro q0 rest h hvalid
    cases hp : env.parseQueries req.Queries q0.TimeRange.From q0.TimeRange.To with
    | panic v =>
      unfold executeTimeSeriesQuery
      split
      · rename_i h2
        rw [h] at h2
        cases h2
      · rename_i q1 rest1 h2
        rw [h] at h2
        cases h2
        simp only [not_lt, if_neg (not_le.mpr hvalid), hp]
        rfl
    | err e =>
      unfold executeTimeSeriesQuery
      split
      · rename_i h2
        rw [h] at h2
        cases h2
      · rename_i q1 rest1 h2
        rw [h] at h2
        cases h2
        simp only [not_lt, if_neg (not_le.mpr hvalid), hp]
        rfl
    | ok byRegion =>
      by_cases hne : byRegion = []
      · unfold executeTimeSeriesQuery
        split
        · rename_i h2
          rw [h] at h2
          cases h2
        · rename_i q1 rest1 h2
          rw [h] at h2
          cases h2
          simp only [not_lt, if_neg (not_le.mpr hvalid), hp, hne, List.length_nil, if_true]
          rfl
      · rw [execute_eq env req q0 rest byRegion schedule h hvalid hp hne, wait_log]
        exact log_head_run env _ byRegion schedule

/-- The statement C3 on the empty request, on a request whose range is
[10, 10], and on the three-query scenario. -/
theorem validation_before_partitioning_witness :
    executeTimeSeriesQuery envABC reqEmpty [0] =
      ⟨.returned none (some (.plain "request contains no queries")), [], []⟩ ∧
    executeTimeSeriesQuery envABC reqBadRange [0] =
      ⟨.returned none
        (some (.plain "invalid time range: start time must be before end time")), [], []⟩ ∧
    (executeTimeSeriesQuery envABC reqABC [0]).log.head? = some .parseQueries :=
  ⟨(validation_before_partitioning envABC reqEmpty [0]).1 rfl,
   (validation_before_partitioning envABC reqBadRange [0]).2.1 _ _ rfl (by decide),
   (validation_before_partitioning envABC reqABC [0]).2.2 _ _ rfl (by decide)⟩

/-- C4, refuted as stated: on the request without queries the call returns an
error and no response, not an empty success response. -/
theorem empty_batch_is_not_a_success :
    ¬ ((executeTimeSeriesQuery envABC reqEmpty []).result = .returned (some ⟨[]⟩) none) ∧
    (executeTimeSeriesQuery envABC reqEmpty []).result =
      .returned none (some (.plain "request contains no queries")) := by
  decide

/-- C4, amended: for a request with zero queries the call returns the error
"request contains no queries" with a nil response, makes no call and starts no
task, whatever the collaborators and the schedule. -/
theorem empty_batch_is_rejected {σ : Sig} (env : Collaborators σ) (pluginContext : String)
    (schedule : List Nat) :
    executeTimeSeriesQuery env ⟨pluginContext, []⟩ schedule =
      ⟨.returned none (some (.plain "request contains no queries")), [], []⟩ := rfl

/-- C5: for a non-empty batch with a valid time range, when `parseQueries`
returns an empty region mapping the call returns a response with an empty
`Responses` map and a nil error, and when `parseQueries` returns an error the
call returns that error with a nil response; in both cases `parseQueries` is the
only call made (no task is started, no other collaborator is called). -/
theorem empty_region_mapping {σ : Sig} (env : Collaborators σ) (req : QueryDataRequest)
    (q0 : DataQuery) (rest : List DataQuery) (schedule : List Nat)
    (hq : req.Queries = q0 :: rest) (hvalid : q0.TimeRange.From < q0.TimeRange.To) :
    (env.parseQueries req.Queries q0.TimeRange.From q0.TimeRange.To = .ok [] →
      executeTimeSeriesQuery env req schedule =
        ⟨.returned (some ⟨[]⟩) none, [.parseQueries], []⟩) ∧
    (∀ e, env.parseQueries req.Queries q0.TimeRange.From q0.TimeRange.To = .err e →
      executeTimeSeriesQuery env req schedule =
        ⟨.returned none (some e), [.parseQueries], []⟩) := by
  constructor
  · intro hp
    unfold executeTimeSeriesQuery
    split
    · rename_i h2
      rw [hq] at h2
      cases h2
    · rename_i q1 rest1 h2
      rw [hq] at h2
      cases h2
      simp only [not_lt, if_neg (not_le.mpr hvalid), hp, List.length_nil, if_true]
  · intro e hp
    unfold executeTimeSeriesQuery
    split
    · rename_i h2
      rw [hq] at h2
      cases h2
    · rename_i q1 rest1 h2
      rw [hq] at h2
      cases h2
      simp only [not_lt, if_neg (not_le.mpr hvalid), hp]

/-- The statement C5 on the three-query batch with a region mapping that is
empty, and with a `parseQueries` that fails. -/
theorem empty_region_mapping_witness :
    executeTimeSeriesQuery (scriptedEnv (.ok []) (fun _ => .ok ()) shapeEach) reqABC [0, 1] =
      ⟨.returned (some ⟨[]⟩) none, [.parseQueries], []⟩ ∧
    executeTimeSeriesQuery
        (scriptedEnv (.err (.plain "bad query")) (fun _ => .ok ()) shapeEach) reqABC [0, 1] =
      ⟨.returned none (some (.plain "bad query")), [.parseQueries], []⟩ :=
  ⟨(empty_region_mapping (scriptedEnv (.ok []) (fun _ => .ok ()) shapeEach) reqABC
      _ _ [0, 1] rfl (by decide)).1 rfl,
   (empty_region_mapping (scriptedEnv (.err (.plain "bad query")) (fun _ => .ok ()) shapeEach)
      reqABC _ _ [0, 1] rfl (by decide)).2 _ rfl⟩

/-! ## Successful returns -/

/-- A successful return carries no error, and its map is assembled from a
rearrangement of what the closures send when none of them fails. -/
theorem returned_response {σ : Sig} (env : Collaborators σ) (req : QueryDataRequest)
    (q0 : DataQuery) (rest : List DataQuery) (byRegion : List (String × List requestQuery))
    (hq : req.Queries = q0 :: rest) (hvalid : q0.TimeRange.From < q0.TimeRange.To)
    (hparse : env.parseQueries req.Queries q0.TimeRange.From q0.TimeRange.To = .ok byRegion)
    (hne : byRegion ≠ []) (schedule : List Nat) (r : QueryDataResponse)
    (err : Option GoError)
    (h : (executeTimeSeriesQuery env req schedule).result = .returned (some r) err) :
    err = none ∧
      List.Perm (executeTimeSeriesQuery env req schedule).resultChan
        (totalOf env (sharedOf req q0) byRegion) ∧
      r.Responses = assemble (executeTimeSeriesQuery env req schedule).resultChan := by
  rw [execute_eq env req q0 rest byRegion schedule hq hvalid hparse hne] at h ⊢
  obtain ⟨hd, hcase⟩ := wait_returned env _ _ _ _ h
  rcases hcase with ⟨he, hr, herr⟩ | ⟨e, _, hr, _⟩
  · rw [wait_success env _ _ hd he]
    refine ⟨herr, run_perm_final env _ byRegion schedule hd he, ?_⟩
    cases hr
    rfl
  · cases hr

/-- When no closure returns an error and the results fit into the channel,
every schedule can be continued to a successful return. -/
theorem can_return {σ : Sig} (env : Collaborators σ) (req : QueryDataRequest)
    (q0 : DataQuery) (rest : List DataQuery) (byRegion : List (String × List requestQuery))
    (hq : req.Queries = q0 :: rest) (hvalid : q0.TimeRange.From < q0.TimeRange.To)
    (hparse : env.parseQueries req.Queries q0.TimeRange.From q0.TimeRange.To = .ok byRegion)
    (hne : byRegion ≠ [])
    (hquiet : ∀ p ∈ byRegion, ∀ e : GoError,
      taskOutcome env (sharedOf req q0) p.1 p.2 ≠ .err e)
    (hfit : (totalOf env (sharedOf req q0) byRegion).length ≤ req.Queries.length)
    (schedule : List Nat) :
    ∃ (more : List Nat) (r : QueryDataResponse),
      (executeTimeSeriesQuery env req (schedule ++ more)).result = .returned (some r) none := by
  have hnb := neverBlocked_of_quiet env (sharedOf req q0) byRegion hquiet hfit
  obtain ⟨more, hd⟩ := finish_all env (sharedOf req q0) _
    (neverBlocked_run env (sharedOf req q0) _ schedule hnb)
  rw [← runSchedule_append] at hd
  refine ⟨more, ⟨assemble
    (runSchedule env (sharedOf req q0) (spawnAll byRegion) (schedule ++ more)).resultChan⟩, ?_⟩
  rw [execute_eq env req q0 rest byRegion _ hq hvalid hparse hne,
    wait_success env _ _ hd (quiet_run env _ byRegion hquiet _).1]

/-- When no closure returns an error, no schedule ends in an error return. -/
theorem no_error_return {σ : Sig} (env : Collaborators σ) (req : QueryDataRequest)
    (q0 : DataQuery) (rest : List DataQuery) (byRegion : List (String × List requestQuery))
    (hq : req.Queries = q0 :: rest) (hvalid : q0.TimeRange.From < q0.TimeRange.To)
    (hparse : env.parseQueries req.Queries q0.TimeRange.From q0.TimeRange.To = .ok byRegion)
    (hne : byRegion ≠ [])
    (hquiet : ∀ p ∈ byRegion, ∀ e : GoError,
      taskOutcome env (sharedOf req q0) p.1 p.2 ≠ .err e)
    (schedule : List Nat) (resp : Option QueryDataResponse) (err : Option GoError)
    (h : (executeTimeSeriesQuery env req schedule).result = .returned resp err) :
    err = none ∧ ∃ r, resp = some r := by
  rw [execute_eq env req q0 rest byRegion schedule hq hvalid hparse hne] at h
  obtain ⟨_, hcase⟩ := wait_returned env _ _ _ _ h
  rcases hcase with ⟨_, hr, herr⟩ | ⟨e, he, _, _⟩
  · exact ⟨herr, _, hr⟩
  · rw [(quiet_run env _ byRegion hquiet schedule).1] at he
    cases he

theorem toSend_ok_ids (res : List (String × DataResponse)) :
    (toSend (.ok res)).map (fun w => w.RefId) = res.map Prod.fst := by
  simp [toSend]

theorem total_ids {σ : Sig} (env : Collaborators σ) (sh : Shared)
    (byRegion : List (String × List requestQuery))
    (hok : ∀ p ∈ byRegion, ∃ res, taskOutcome env sh p.1 p.2 = .ok res ∧
      List.Perm (res.map Prod.fst) (p.2.map fun q => q.RefId)) :
    List.Perm ((totalOf env sh byRegion).map fun w => w.RefId)
      (byRegion.flatMap fun p => p.2.map fun q => q.RefId) := by
  induction byRegion with
  | nil => exact List.Perm.refl _
  | cons p rest ih =>
    obtain ⟨res, hres, hperm⟩ := hok p (List.mem_cons_self _ _)
    have ih2 := ih (fun x hx => hok x (List.mem_cons_of_mem _ hx))
    simp only [totalOf, List.flatMap_cons, List.map_append] at ih2 ⊢
    rw [hres, toSend_ok_ids]
    exact List.Perm.append hperm ih2

theorem mem_total {σ : Sig} (env : Collaborators σ) (sh : Shared)
    (byRegion : List (String × List requestQuery)) (p : String × List requestQuery)
    (hp : p ∈ byRegion) (w : responseWrapper)
    (hw : w ∈ toSend (taskOutcome env sh p.1 p.2)) : w ∈ totalOf env sh byRegion := by
  simp only [totalOf, List.mem_flatMap]
  exact ⟨p, hp, hw⟩

theorem length_keysOf (m : List (String × DataResponse)) : (keysOf m).length = m.length := by
  simp [keysOf]

theorem keysOf_assemble (ws : List responseWrapper)
    (h : (ws.map fun w => w.RefId).Nodup) : keysOf (assemble ws) = ws.map fun w => w.RefId := by
  have := keysOf_drainInto ws [] (by simpa [keysOf] using h)
  simpa [assemble, keysOf] using this

theorem getResp_assemble_of_nodup (ws : List responseWrapper)
    (h : (ws.map fun w => w.RefId).Nodup) (w : responseWrapper) (hw : w ∈ ws) :
    getResp (assemble ws) w.RefId = some w.DataResponse := by
  apply getResp_drainInto_agree ws w [] hw
  intro x hx hk
  rw [List.inj_on_of_nodup_map h hx hw hk]

/-- C1: for a non-empty batch of queries with pairwise distinct identifiers and a
valid time range, which `parseQueries` partitions into region groups, when every
region's closure succeeds and its shaper returns exactly one entry per query
identifier of the group, every schedule can be continued until the call returns,
and every return carries no error and a `Responses` map whose keys are exactly
the identifiers of the batch (one entry per query, no duplicate, none missing),
the value under each identifier being the one the shaper produced for it. -/
theorem round_trip {σ : Sig} (env : Collaborators σ) (req : QueryDataRequest)
    (q0 : DataQuery) (rest : List DataQuery) (byRegion : List (String × List requestQuery))
    (hq : req.Queries = q0 :: rest) (hvalid : q0.TimeRange.From < q0.TimeRange.To)
    (hdistinct : (req.Queries.map fun q => q.RefID).Nodup)
    (hparse : env.parseQueries req.Queries q0.TimeRange.From q0.TimeRange.To = .ok byRegion)
    (hpart : List.Perm (byRegion.flatMap fun p => p.2.map fun q => q.RefId)
      (req.Queries.map fun q => q.RefID))
    (hok : ∀ p ∈ byRegion, ∃ res, taskOutcome env (sharedOf req q0) p.1 p.2 = .ok res ∧
      List.Perm (res.map Prod.fst) (p.2.map fun q => q.RefId)) :
    (∀ schedule : List Nat, ∃ (more : List Nat) (r : QueryDataResponse),
      (executeTimeSeriesQuery env req (schedule ++ more)).result = .returned (some r) none) ∧
    (∀ (schedule : List Nat) (resp : Option QueryDataResponse) (err : Option GoError),
      (executeTimeSeriesQuery env req schedule).result = .returned resp err →
      err = none ∧ ∃ r, resp = some r ∧
        List.Perm (keysOf r.Responses) (req.Queries.map fun q => q.RefID) ∧
        r.Responses.length = req.Queries.length ∧
        ∀ p ∈ byRegion, ∀ res, taskOutcome env (sharedOf req q0) p.1 p.2 = .ok res →
          ∀ kv ∈ res, getResp r.Responses kv.1 = some kv.2) := by
  have hne : byRegion ≠ [] := by
    intro h0
    rw [h0, hq] at hpart
    have := hpart.length_eq
    simp at this
  have hquiet : ∀ p ∈ byRegion, ∀ e : GoError,
      taskOutcome env (sharedOf req q0) p.1 p.2 ≠ .err e := by
    intro p hp e he
    obtain ⟨res, hres, _⟩ := hok p hp
    rw [hres] at he
    cases he
  have hids := (total_ids env (sharedOf req q0) byRegion hok).trans hpart
  have hfit : (totalOf env (sharedOf req q0) byRegion).length ≤ req.Queries.length := by
    have := hids.length_eq
    simp only [List.length_map] at this
    omega
  refine ⟨can_return env req q0 rest byRegion hq hvalid hparse hne hquiet hfit, ?_⟩
  intro schedule resp err h
  obtain ⟨herr, r, hr⟩ := no_error_return env req q0 rest byRegion hq hvalid hparse hne hquiet
    schedule resp err h
  subst hr
  obtain ⟨_, hperm, hresp⟩ :=
    returned_response env req q0 rest byRegion hq hvalid hparse hne schedule r err h
  have hchan : List.Perm ((executeTimeSeriesQuery env req schedule).resultChan.map
      fun w => w.RefId) (req.Queries.map fun q => q.RefID) := (hperm.map _).trans hids
  have hnd : ((executeTimeSeriesQuery env req schedule).resultChan.map
      fun w => w.RefId).Nodup := hchan.nodup_iff.mpr hdistinct
  have hkeys := keysOf_assemble _ hnd
  refine ⟨herr, r, rfl, ?_, ?_, ?_⟩
  · rw [hresp, hkeys]
    exact hchan
  · rw [← length_keysOf, hresp, hkeys]
    have := hchan.length_eq
    simpa using this
  · intro p hp res hres kv hkv
    have hmem : (⟨kv.2, kv.1⟩ : responseWrapper) ∈ totalOf env (sharedOf req q0) byRegion := by
      apply mem_total env _ byRegion p hp
      rw [hres]
      simp only [toSend, List.mem_map]
      exact ⟨kv, hkv, rfl⟩
    rw [hresp]
    exact getResp_assemble_of_nodup _ hnd ⟨kv.2, kv.1⟩ (hperm.mem_iff.mpr hmem)

/-- The statement C1 on the scenario of the specification: A and B in
us-east-1, C in eu-west-1, every call succeeding. -/
theorem round_trip_witness :
    (∀ schedule : List Nat, ∃ (more : List Nat) (r : QueryDataResponse),
      (executeTimeSeriesQuery envABC reqABC (schedule ++ more)).result =
        .returned (some r) none) ∧
    (∀ (schedule : List Nat) (resp : Option QueryDataResponse) (err : Option GoError),
      (executeTimeSeriesQuery envABC reqABC schedule).result = .returned resp err →
      err = none ∧ ∃ r, resp = some r ∧
        List.Perm (keysOf r.Responses) ["A", "B", "C"] ∧
        r.Responses.length = 3 ∧
        ∀ p ∈ groupsABC, ∀ res,
          taskOutcome envABC (sharedOf reqABC ⟨"A", ⟨0, 10⟩, ""⟩) p.1 p.2 = .ok res →
          ∀ kv ∈ res, getResp r.Responses kv.1 = some kv.2) :=
  round_trip envABC reqABC ⟨"A", ⟨0, 10⟩, ""⟩ _ groupsABC rfl (by decide) (by decide) rfl
    (List.Perm.refl _)
    (by
      intro p hp
      simp only [groupsABC, List.mem_cons, List.mem_singleton, List.not_mem_nil, or_false] at hp
      rcases hp with rfl | rfl
      · exact ⟨_, rfl, List.Perm.refl _⟩
      · exact ⟨_, rfl, List.Perm.refl _⟩)

/-! ## Error returns -/

/-- What `eg.Wait()` and the lines after it deliver when the errgroup holds an
error. -/
theorem wait_error {σ : Sig} (env : Collaborators σ) (sh : Shared) (cfg : Config σ)
    (e : GoError) (hd : allDone cfg = true) (he : cfg.egErr = some e) :
    (errorsAsRequestFailure e = true → cfg.resultChan.length < sh.capacity →
      waitAndAssemble env sh cfg =
        ⟨.returned none (some e), cfg.log, cfg.resultChan ++ [syntheticResult env e]⟩) ∧
    (errorsAsRequestFailure e = true → ¬ cfg.resultChan.length < sh.capacity →
      waitAndAssemble env sh cfg = ⟨.notReturned, cfg.log, cfg.resultChan⟩) ∧
    (errorsAsRequestFailure e = false →
      waitAndAssemble env sh cfg = ⟨.returned none (some e), cfg.log, cfg.resultChan⟩) := by
  refine ⟨?_, ?_, ?_⟩
  · intro h1 h2
    simp [waitAndAssemble, hd, he, h1, h2]
  · intro h1 h2
    simp [waitAndAssemble, hd, he, h1, h2]
  · intro h1
    simp [waitAndAssemble, hd, he, h1]

/-! ## Results with an empty RefId and the order of arrival -/

theorem getResp_drainInto_isSome (ws : List responseWrapper) (k : String) :
    ∀ m : List (String × DataResponse), (∃ w ∈ ws, w.RefId = k) →
      ∃ v, getResp (drainInto m ws) k = some v := by
  induction ws with
  | nil =>
    intro m h
    obtain ⟨w, hw, _⟩ := h
    cases hw
  | cons w0 rest ih =>
    intro m h
    rw [drainInto_cons]
    by_cases hex : ∃ w ∈ rest, w.RefId = k
    · exact ih _ hex
    · have hab : ∀ x ∈ rest, x.RefId ≠ k := fun x hx hxk => hex ⟨x, hx, hxk⟩
      rw [getResp_drainInto_absent rest k _ hab]
      obtain ⟨w, hw, hk⟩ := h
      rcases List.mem_cons.mp hw with h1 | h1
      · subst h1
        subst hk
        exact ⟨_, getResp_setResp_same m _ _⟩
      · exact absurd hk (hab w h1)

theorem getResp_nil (k : String) : getResp [] k = none := rfl

/-- With pairwise distinct RefIds the assembled map does not depend on the
order of arrival. -/
theorem assemble_perm (ws ws2 : List responseWrapper) (hperm : List.Perm ws2 ws)
    (hnd : (ws.map fun w => w.RefId).Nodup) :
    (∀ k, getResp (assemble ws2) k = getResp (assemble ws) k) ∧
      List.Perm (keysOf (assemble ws2)) (keysOf (assemble ws)) := by
  have hnd2 : (ws2.map fun w => w.RefId).Nodup := (hperm.map _).nodup_iff.mpr hnd
  constructor
  · intro k
    by_cases hex : ∃ w ∈ ws, w.RefId = k
    · obtain ⟨w, hw, hk⟩ := hex
      subst hk
      rw [getResp_assemble_of_nodup ws hnd w hw,
        getResp_assemble_of_nodup ws2 hnd2 w (hperm.mem_iff.mpr hw)]
    · have hab : ∀ x ∈ ws, x.RefId ≠ k := fun x hx hxk => hex ⟨x, hx, hxk⟩
      have hab2 : ∀ x ∈ ws2, x.RefId ≠ k := fun x hx => hab x (hperm.mem_iff.mp hx)
      unfold assemble
      rw [getResp_drainInto_absent ws k _ hab, getResp_drainInto_absent ws2 k _ hab2]
  · rw [keysOf_assemble ws hnd, keysOf_assemble ws2 hnd2]
    exact hperm.map _

/-- C6, refuted as stated: the single query A, whose closure panics in
`getCWClient` with a value that is an error.  The call returns successfully and
its map holds the result built by the recover boundary under the empty key,
although no query carries the empty identifier. -/
theorem fault_result_is_stored :
    (executeTimeSeriesQuery (envPanicFirst groupsA) reqA [0, 0]).result =
      .returned (some ⟨[("", ⟨[], some (.plain "runtime error: index out of range")⟩)]⟩)
        none ∧
    "" ∉ reqA.Queries.map (fun q => q.RefID) := by
  decide

/-- C6, amended: the result built by the recover boundary for a panic whose
value is an error is placed into the response map, under the empty key.  For
every successful return of a call in which some region's closure panics with an
error value, the returned map has an entry under the empty string, and its value
is the result of the recover boundary of such a closure or a shaped result that
itself carries the empty identifier. -/
theorem fault_result_under_empty_key {σ : Sig} (env : Collaborators σ)
    (req : QueryDataRequest) (q0 : DataQuery) (rest : List DataQuery)
    (byRegion : List (String × List requestQuery))
    (hq : req.Queries = q0 :: rest) (hvalid : q0.TimeRange.From < q0.TimeRange.To)
    (hparse : env.parseQueries req.Queries q0.TimeRange.From q0.TimeRange.To = .ok byRegion)
    (pf : String × List requestQuery) (theErr : GoError) (hpf : pf ∈ byRegion)
    (hpanic : taskOutcome env (sharedOf req q0) pf.1 pf.2 = .panic (.error theErr))
    (schedule : List Nat) (r : QueryDataResponse) (err : Option GoError)
    (h : (executeTimeSeriesQuery env req schedule).result = .returned (some r) err) :
    ∃ v, getResp r.Responses "" = some v ∧
      ((∃ p ∈ byRegion, ∃ e2, taskOutcome env (sharedOf req q0) p.1 p.2 = .panic (.error e2) ∧
          v = ⟨[], some e2⟩) ∨
       (∃ p ∈ byRegion, ∃ res, taskOutcome env (sharedOf req q0) p.1 p.2 = .ok res ∧
          ("", v) ∈ res)) := by
  have hne : byRegion ≠ [] := List.ne_nil_of_mem hpf
  obtain ⟨_, hperm, hresp⟩ :=
    returned_response env req q0 rest byRegion hq hvalid hparse hne schedule r err h
  have hfault : (⟨⟨[], some theErr⟩, ""⟩ : responseWrapper) ∈
      totalOf env (sharedOf req q0) byRegion := by
    apply mem_total env _ byRegion pf hpf
    rw [hpanic]
    simp [toSend]
  obtain ⟨v, hv⟩ := getResp_drainInto_isSome _ "" []
    ⟨_, hperm.mem_iff.mpr hfault, rfl⟩
  refine ⟨v, by rw [hresp]; exact hv, ?_⟩
  rcases getResp_drainInto_source _ "" v [] hv with ⟨w, hw, hk, hwv⟩ | hnone
  · have hwt := hperm.mem_iff.mp hw
    simp only [totalOf, List.mem_flatMap] at hwt
    obtain ⟨p, hp, hwp⟩ := hwt
    cases ho : taskOutcome env (sharedOf req q0) p.1 p.2 with
    | ok res =>
      right
      rw [ho] at hwp
      simp only [toSend, List.mem_map] at hwp
      obtain ⟨kv, hkv, hkw⟩ := hwp
      refine ⟨p, hp, res, ho, ?_⟩
      have h1 : kv.1 = "" := by rw [← hk, ← hkw]
      have h2 : kv.2 = v := by rw [← hwv, ← hkw]
      rw [← h1, ← h2]
      exact hkv
    | err e =>
      rw [ho] at hwp
      simp [toSend] at hwp
    | panic pv =>
      cases pv with
      | error e2 =>
        left
        rw [ho] at hwp
        simp only [toSend, List.mem_singleton] at hwp
        refine ⟨p, hp, e2, ho, ?_⟩
        rw [← hwv, hwp]
      | other d =>
        rw [ho] at hwp
        simp [toSend] at hwp
  · rw [getResp_nil] at hnone
    cases hnone

/-- The statement C6 (amended) on the scenario in which the closure of us-east-1
panics and eu-west-1 delivers the result of C. -/
theorem fault_result_under_empty_key_witness :
    ∃ v, getResp [("", ⟨[], some (.plain "runtime error: index out of range")⟩),
        ("C", ⟨["c"], none⟩)] "" = some v ∧
      ((∃ p ∈ groupsABC, ∃ e2,
          taskOutcome (envPanicFirst groupsABC) (sharedOf reqABC ⟨"A", ⟨0, 10⟩, ""⟩) p.1 p.2 =
            .panic (.error e2) ∧ v = ⟨[], some e2⟩) ∨
       (∃ p ∈ groupsABC, ∃ res,
          taskOutcome (envPanicFirst groupsABC) (sharedOf reqABC ⟨"A", ⟨0, 10⟩, ""⟩) p.1 p.2 =
            .ok res ∧ ("", v) ∈ res)) :=
  fault_result_under_empty_key (envPanicFirst groupsABC) reqABC ⟨"A", ⟨0, 10⟩, ""⟩ _ groupsABC
    rfl (by decide) rfl _ _ (List.mem_cons_self _ _) rfl twoStepsThenSecond
    ⟨[("", ⟨[], some (.plain "runtime error: index out of range")⟩), ("C", ⟨["c"], none⟩)]⟩
    none rfl

/-- C7, refuted as stated: A in us-east-1, whose closure panics with an error
value, and a query with an empty RefID in eu-west-1, whose closure succeeds and
sends its result under the empty identifier.  When the result of the recover
boundary arrives last, the map holds it under the empty key instead of the
result the sibling produced. -/
theorem sibling_result_overwritten :
    taskOutcome (envPanicFirst groupsAE) (sharedOf reqAE ⟨"A", ⟨0, 10⟩, ""⟩) "eu-west-1"
        [⟨"", "eu-west-1", "e"⟩] = .ok [("", ⟨["e"], none⟩)] ∧
    (executeTimeSeriesQuery (envPanicFirst groupsAE) reqAE secondThenTwoSteps).result =
      .returned (some ⟨[("", ⟨[], some (.plain "runtime error: index out of range")⟩)]⟩)
        none ∧
    getResp [("", ⟨[], some (.plain "runtime error: index out of range")⟩)] "" ≠
      some ⟨["e"], none⟩ := by
  refine ⟨rfl, rfl, ?_⟩
  decide

/-- C7, amended: for a batch that passes validation, when one region's closure
panics with a value that is an error and every other region's closure succeeds,
no schedule ends in a batch-level error: every return carries a nil error and a
response.  Provided the identifiers sent by the siblings are pairwise distinct
and none of them is empty (the values put on the channel have pairwise distinct
RefIds), the returned map holds, under every identifier a sibling sent, the
result that sibling produced.  When the values put on the channel fit into it,
every schedule can be continued until the call returns. -/
theorem fault_isolation {σ : Sig} (env : Collaborators σ) (req : QueryDataRequest)
    (q0 : DataQuery) (rest : List DataQuery) (byRegion : List (String × List requestQuery))
    (hq : req.Queries = q0 :: rest) (hvalid : q0.TimeRange.From < q0.TimeRange.To)
    (hparse : env.parseQueries req.Queries q0.TimeRange.From q0.TimeRange.To = .ok byRegion)
    (pf : String × List requestQuery) (theErr : GoError) (hpf : pf ∈ byRegion)
    (hpanic : taskOutcome env (sharedOf req q0) pf.1 pf.2 = .panic (.error theErr))
    (hsiblings : ∀ p ∈ byRegion, p = pf ∨
      ∃ res, taskOutcome env (sharedOf req q0) p.1 p.2 = .ok res) :
    (∀ (schedule : List Nat) (resp : Option QueryDataResponse) (err : Option GoError),
      (executeTimeSeriesQuery env req schedule).result = .returned resp err →
      err = none ∧ ∃ r, resp = some r ∧
        (((totalOf env (sharedOf req q0) byRegion).map fun w => w.RefId).Nodup →
          ∀ p ∈ byRegion, ∀ res, taskOutcome env (sharedOf req q0) p.1 p.2 = .ok res →
            ∀ kv ∈ res, getResp r.Responses kv.1 = some kv.2)) ∧
    ((totalOf env (sharedOf req q0) byRegion).length ≤ req.Queries.length →
      ∀ schedule : List Nat, ∃ (more : List Nat) (r : QueryDataResponse),
        (executeTimeSeriesQuery env req (schedule ++ more)).result =
          .returned (some r) none) := by
  have hne : byRegion ≠ [] := List.ne_nil_of_mem hpf
  have hquiet : ∀ p ∈ byRegion, ∀ e : GoError,
      taskOutcome env (sharedOf req q0) p.1 p.2 ≠ .err e := by
    intro p hp e he
    rcases hsiblings p hp with h1 | ⟨res, h1⟩
    · rw [h1, hpanic] at he
      cases he
    · rw [h1] at he
      cases he
  refine ⟨?_, fun hfit => can_return env req q0 rest byRegion hq hvalid hparse hne hquiet hfit⟩
  intro schedule resp err h
  obtain ⟨herr, r, hr⟩ := no_error_return env req q0 rest byRegion hq hvalid hparse hne hquiet
    schedule resp err h
  subst hr
  obtain ⟨_, hperm, hresp⟩ :=
    returned_response env req q0 rest byRegion hq hvalid hparse hne schedule r err h
  refine ⟨herr, r, rfl, ?_⟩
  intro hids p hp res hres kv hkv
  have hnd : ((executeTimeSeriesQuery env req schedule).resultChan.map
      fun w => w.RefId).Nodup := (hperm.map _).nodup_iff.mpr hids
  have hmem : (⟨kv.2, kv.1⟩ : responseWrapper) ∈ totalOf env (sharedOf req q0) byRegion := by
    apply mem_total env _ byRegion p hp
    rw [hres]
    simp only [toSend, List.mem_map]
    exact ⟨kv, hkv, rfl⟩
  rw [hresp]
  exact getResp_assemble_of_nodup _ hnd ⟨kv.2, kv.1⟩ (hperm.mem_iff.mpr hmem)

/-- The statement C7 (amended) on the scenario in which the closure of us-east-1
panics and eu-west-1 delivers the result of C, and its first part on the batch
with an empty RefID, where the identifiers are not distinct. -/
theorem fault_isolation_witness :
    (∀ (schedule : List Nat) (resp : Option QueryDataResponse) (err : Option GoError),
      (executeTimeSeriesQuery (envPanicFirst groupsABC) reqABC schedule).result =
        .returned resp err →
      err = none ∧ ∃ r, resp = some r ∧
        ∀ p ∈ groupsABC, ∀ res,
          taskOutcome (envPanicFirst groupsABC) (sharedOf reqABC ⟨"A", ⟨0, 10⟩, ""⟩) p.1 p.2 =
            .ok res →
          ∀ kv ∈ res, getResp r.Responses kv.1 = some kv.2) ∧
    (∀ schedule : List Nat, ∃ (more : List Nat) (r : QueryDataResponse),
      (executeTimeSeriesQuery (envPanicFirst groupsABC) reqABC (schedule ++ more)).result =
        .returned (some r) none) ∧
    (∀ (schedule : List Nat) (resp : Option QueryDataResponse) (err : Option GoError),
      (executeTimeSeriesQuery (envPanicFirst groupsAE) reqAE schedule).result =
        .returned resp err →
      err = none ∧ ∃ r, resp = some r) :=
  ⟨fun schedule resp err h =>
      (fun hh => ⟨hh.1, hh.2.imp fun _ hr => ⟨hr.1, hr.2 (by decide)⟩⟩)
        ((fault_isolation (envPanicFirst groupsABC) reqABC ⟨"A", ⟨0, 10⟩, ""⟩ _ groupsABC
          rfl (by decide) rfl _ (.plain "runtime error: index out of range")
          (List.mem_cons_self _ _) rfl
          (by
            intro p hp
            simp only [groupsABC, List.mem_cons, List.mem_singleton, List.not_mem_nil,
              or_false] at hp
            rcases hp with rfl | rfl
            · exact Or.inl rfl
            · exact Or.inr ⟨_, rfl⟩)).1 schedule resp err h),
   (fault_isolation (envPanicFirst groupsABC) reqABC ⟨"A", ⟨0, 10⟩, ""⟩ _ groupsABC
      rfl (by decide) rfl _ (.plain "runtime error: index out of range")
      (List.mem_cons_self _ _) rfl
      (by
        intro p hp
        simp only [groupsABC, List.mem_cons, List.mem_singleton, List.not_mem_nil,
          or_false] at hp
        rcases hp with rfl | rfl
        · exact Or.inl rfl
        · exact Or.inr ⟨_, rfl⟩)).2 (by decide),
   fun schedule resp err h =>
      (fun hh => ⟨hh.1, hh.2.imp fun _ hr => hr.1⟩)
        ((fault_isolation (envPanicFirst groupsAE) reqAE ⟨"A", ⟨0, 10⟩, ""⟩ _ groupsAE
          rfl (by decide) rfl _ (.plain "runtime error: index out of range")
          (List.mem_cons_self _ _) rfl
          (by
            intro p hp
            simp only [groupsAE, List.mem_cons, List.mem_singleton, List.not_mem_nil,
              or_false] at hp
            rcases hp with rfl | rfl
            · exact Or.inl rfl
            · exact Or.inr ⟨_, rfl⟩)).1 schedule resp err h)⟩

/-- C10, refuted as stated: two regions whose closures both panic with an error
value.  Both schedules end in a successful return, but the map holds under the
empty key the result that arrived last, so the two returned maps differ. -/
theorem arrival_order_matters :
    (executeTimeSeriesQuery (envPanicAll groupsAB) reqAB [0, 0, 1, 1]).result =
      .returned (some ⟨[("", ⟨[], some (.plain "runtime error in eu-west-1")⟩)]⟩) none ∧
    (executeTimeSeriesQuery (envPanicAll groupsAB) reqAB [1, 1, 0, 0]).result =
      .returned (some ⟨[("", ⟨[], some (.plain "runtime error in us-east-1")⟩)]⟩) none ∧
    List.Perm (executeTimeSeriesQuery (envPanicAll groupsAB) reqAB [0, 0, 1, 1]).resultChan
      (executeTimeSeriesQuery (envPanicAll groupsAB) reqAB [1, 1, 0, 0]).resultChan ∧
    getResp (assemble (executeTimeSeriesQuery (envPanicAll groupsAB) reqAB [0, 0, 1, 1]).resultChan)
        "" ≠
      getResp (assemble (executeTimeSeriesQuery (envPanicAll groupsAB) reqAB [1, 1, 0, 0]).resultChan)
        "" := by
  refine ⟨rfl, rfl, ?_, ?_⟩
  · exact List.Perm.swap _ _ _
  · decide

/-- C10, amended: for every successful run whose drained results carry pairwise
distinct identifiers (so at most one of them has an empty RefId), assembling any
rearrangement of the drained sequence gives a map with the same value under
every key and the same keys, and every other successful run of the same call
returns such a map, whatever the schedule. -/
theorem assembled_response_deterministic {σ : Sig} (env : Collaborators σ)
    (req : QueryDataRequest) (q0 : DataQuery) (rest : List DataQuery)
    (byRegion : List (String × List requestQuery))
    (hq : req.Queries = q0 :: rest) (hvalid : q0.TimeRange.From < q0.TimeRange.To)
    (hparse : env.parseQueries req.Queries q0.TimeRange.From q0.TimeRange.To = .ok byRegion)
    (hne : byRegion ≠ []) (schedule : List Nat) (r : QueryDataResponse)
    (err : Option GoError)
    (h : (executeTimeSeriesQuery env req schedule).result = .returned (some r) err)
    (hids : ((executeTimeSeriesQuery env req schedule).resultChan.map
      fun w => w.RefId).Nodup) :
    (∀ drained : List responseWrapper,
      List.Perm drained (executeTimeSeriesQuery env req schedule).resultChan →
      (∀ k, getResp (assemble drained) k = getResp r.Responses k) ∧
        List.Perm (keysOf (assemble drained)) (keysOf r.Responses)) ∧
    (∀ (schedule2 : List Nat) (r2 : QueryDataResponse) (err2 : Option GoError),
      (executeTimeSeriesQuery env req schedule2).result = .returned (some r2) err2 →
      (∀ k, getResp r2.Responses k = getResp r.Responses k) ∧
        List.Perm (keysOf r2.Responses) (keysOf r.Responses)) := by
  obtain ⟨_, hperm, hresp⟩ :=
    returned_response env req q0 rest byRegion hq hvalid hparse hne schedule r err h
  constructor
  · intro drained hd
    rw [hresp]
    exact assemble_perm _ drained hd hids
  · intro schedule2 r2 err2 h2
    obtain ⟨_, hperm2, hresp2⟩ :=
      returned_response env req q0 rest byRegion hq hvalid hparse hne schedule2 r2 err2 h2
    rw [hresp, hresp2]
    exact assemble_perm _ _ (hperm2.trans hperm.symm) hids

/-- The statement C10 (amended) on the scenario of the specification, first
task first, against every other schedule. -/
theorem assembled_response_deterministic_witness :
    (∀ drained : List responseWrapper,
      List.Perm drained (executeTimeSeriesQuery envABC reqABC firstThenSecond).resultChan →
      (∀ k, getResp (assemble drained) k =
          getResp [("A", ⟨["a"], none⟩), ("B", ⟨["b"], none⟩), ("C", ⟨["c"], none⟩)] k) ∧
        List.Perm (keysOf (assemble drained)) ["A", "B", "C"]) ∧
    (∀ (schedule2 : List Nat) (r2 : QueryDataResponse) (err2 : Option GoError),
      (executeTimeSeriesQuery envABC reqABC schedule2).result = .returned (some r2) err2 →
      (∀ k, getResp r2.Responses k =
          getResp [("A", ⟨["a"], none⟩), ("B", ⟨["b"], none⟩), ("C", ⟨["c"], none⟩)] k) ∧
        List.Perm (keysOf r2.Responses) ["A", "B", "C"]) :=
  assembled_response_deterministic envABC reqABC ⟨"A", ⟨0, 10⟩, ""⟩ _ groupsABC rfl
    (by decide) rfl (by decide) firstThenSecond
    ⟨[("A", ⟨["a"], none⟩), ("B", ⟨["b"], none⟩), ("C", ⟨["c"], none⟩)]⟩ none rfl (by decide)

/-! ## The capacity of the result channel -/

theorem sum_map_set {α : Type} (f : α → Nat) (t2 : α) :
    ∀ (l : List α) (i : Nat) (t : α), l[i]? = some t →
      ((l.set i t2).map f).sum + f t = (l.map f).sum + f t2 := by
  intro l
  induction l with
  | nil => intro i t h; simp at h
  | cons a rest ih =>
    intro i t h
    cases i with
    | zero =>
      simp only [List.getElem?_cons_zero, Option.some.injEq] at h
      subst h
      simp only [List.set_cons_zero, List.map_cons, List.sum_cons]
      omega
    | succ j =>
      simp only [List.getElem?_cons_succ] at h
      have := ih j t h
      simp only [List.set_cons_succ, List.map_cons, List.sum_cons]
      omega

theorem le_sum_map {α : Type} (f : α → Nat) (l : List α) (a : α) (h : a ∈ l) :
    f a ≤ (l.map f).sum := by
  induction l with
  | nil => simp at h
  | cons b rest ih =>
    simp only [List.map_cons, List.sum_cons]
    rcases List.mem_cons.mp h with heq | hmem
    · subst heq
      omega
    · have := ih hmem
      omega

theorem budget_advance {σ : Sig} {α : Type} (region : String) (rqs : List requestQuery)
    (o : Outcome α) (k : α → TaskState σ) (hne : rqs ≠ [])
    (hk : ∀ a, o = .ok a → budget ⟨region, rqs, k a⟩ ≤ rqs.length ∧ (k a).returned = none) :
    budget ⟨region, rqs, advance o k⟩ +
      (if (advance o k).returned.isSome ∧ (advance o k).returned ≠ some none then 1 else 0) ≤
      rqs.length := by
  have hpos : 0 < rqs.length := List.length_pos.mpr hne
  cases o with
  | ok a =>
    obtain ⟨h1, h2⟩ := hk a rfl
    simp only [advance, h2]
    simpa using h1
  | err e =>
    simp only [advance, budget, TaskState.returned]
    simp
    omega
  | panic v =>
    cases v with
    | error theErr =>
      simp [advance, budget, TaskState.returned]
      omega
    | other d => simp [advance, budget, TaskState.returned]

/-- A step sends at most what it takes off the budget of its task, and a step
that returns an error leaves one unit of the budget unused. -/
theorem stepState_budget {σ : Sig} (env : Collaborators σ) (sh : Shared) (region : String)
    (rqs : List requestQuery) (c room : Bool) (s next : TaskState σ)
    (sent : List responseWrapper) (hne : rqs ≠ [])
    (hshape : ∀ rs res, env.transformQueryResponsesToQueryResult rs rqs sh.startTime
      sh.endTime = .ok res → res.length ≤ rqs.length)
    (h : stepState env sh region rqs c room s = some (next, sent)) :
    budget ⟨region, rqs, next⟩ + sent.length +
      (if next.returned.isSome ∧ next.returned ≠ some none then 1 else 0) ≤
      budget ⟨region, rqs, s⟩ := by
  cases s with
  | dispatched =>
    simp only [stepState, Option.some.injEq, Prod.mk.injEq] at h
    obtain ⟨h1, h2⟩ := h
    subst h1 h2
    have := budget_advance region rqs (env.getCWClient region sh.pluginContext)
      TaskState.clientResolved hne (fun a _ => ⟨Nat.le_refl _, rfl⟩)
    simpa [budget] using this
  | clientResolved client =>
    simp only [stepState, Option.some.injEq, Prod.mk.injEq] at h
    obtain ⟨h1, h2⟩ := h
    subst h1 h2
    have := budget_advance region rqs (env.transformRequestQueriesToCloudWatchQueries rqs)
      (TaskState.translated client) hne (fun a _ => ⟨Nat.le_refl _, rfl⟩)
    simpa [budget] using this
  | translated client queries =>
    simp only [stepState, Option.some.injEq, Prod.mk.injEq] at h
    obtain ⟨h1, h2⟩ := h
    subst h1 h2
    have := budget_advance region rqs (env.buildMetricDataInput sh.startTime sh.endTime queries)
      (TaskState.requestBuilt client queries) hne (fun a _ => ⟨Nat.le_refl _, rfl⟩)
    simpa [budget] using this
  | requestBuilt client queries metricDataInput =>
    simp only [stepState, Option.some.injEq, Prod.mk.injEq] at h
    obtain ⟨h1, h2⟩ := h
    subst h1 h2
    have := budget_advance region rqs (env.executeRequest c client metricDataInput)
      (TaskState.callExecuted queries) hne (fun a _ => ⟨Nat.le_refl _, rfl⟩)
    simpa [budget] using this
  | callExecuted queries mdo =>
    simp only [stepState, Option.some.injEq, Prod.mk.injEq] at h
    obtain ⟨h1, h2⟩ := h
    subst h1 h2
    have := budget_advance region rqs (env.parseResponse mdo queries)
      TaskState.responseParsed hne (fun a _ => ⟨Nat.le_refl _, rfl⟩)
    simpa [budget] using this
  | responseParsed responses =>
    simp only [stepState, Option.some.injEq, Prod.mk.injEq] at h
    obtain ⟨h1, h2⟩ := h
    subst h1 h2
    have := @budget_advance σ _ region rqs
      (env.transformQueryResponsesToQueryResult responses rqs sh.startTime sh.endTime)
      TaskState.emitting hne (fun a ha => ⟨hshape responses a ha, rfl⟩)
    simpa [budget] using this
  | emitting pending =>
    cases pending with
    | nil =>
      simp only [stepState, Option.some.injEq, Prod.mk.injEq] at h
      obtain ⟨h1, h2⟩ := h
      subst h1 h2
      simp [budget, TaskState.returned]
    | cons x rest =>
      cases room with
      | false => simp [stepState] at h
      | true =>
        simp only [stepState, if_true, Option.some.injEq, Prod.mk.injEq] at h
        obtain ⟨h1, h2⟩ := h
        subst h1 h2
        simp [budget, TaskState.returned]
  | recovering v =>
    cases v with
    | error theErr =>
      cases room with
      | false => simp [stepState] at h
      | true =>
        simp only [stepState, if_true, Option.some.injEq, Prod.mk.injEq] at h
        obtain ⟨h1, h2⟩ := h
        subst h1 h2
        simp [budget, TaskState.returned]
    | other d =>
      simp only [stepState, Option.some.injEq, Prod.mk.injEq] at h
      obtain ⟨h1, h2⟩ := h
      subst h1 h2
      simp [budget, TaskState.returned]
  | done err => simp [stepState] at h

theorem reserve_recordErr (egErr : Option GoError) (r : Option (Option GoError)) :
    reserve (recordErr egErr r) ≤
      reserve egErr + (if r.isSome ∧ r ≠ some none then 1 else 0) := by
  cases egErr with
  | some first =>
    cases r with
    | none => simp [recordErr, reserve]
    | some x => cases x <;> simp [recordErr, reserve]
  | none =>
    cases r with
    | none => simp [recordErr, reserve]
    | some x => cases x <;> simp [recordErr, reserve]

theorem fits_step {σ : Sig} (env : Collaborators σ) (sh : Shared)
    (byRegion : List (String × List requestQuery))
    (hw : ∀ p ∈ byRegion, p.2 ≠ [] ∧
      ∀ rs res, env.transformQueryResponsesToQueryResult rs p.2 sh.startTime sh.endTime =
        .ok res → res.length ≤ p.2.length)
    (cfg : Config σ) (i : Nat) (h : Fits sh byRegion cfg) :
    Fits sh byRegion (stepTask env sh cfg i) := by
  rcases stepTask_eq env sh cfg i with heq | ⟨t, next, sent, ht, hs, heq⟩
  · rw [heq]
    exact h
  · rw [heq]
    obtain ⟨hfit, hgroups⟩ := h
    have hin := hgroups t (List.getElem?_mem ht)
    obtain ⟨hne, hshape⟩ := hw _ hin
    have hb : budget ⟨t.region, t.requestQueries, next⟩ + sent.length +
        (if next.returned.isSome ∧ next.returned ≠ some none then 1 else 0) ≤ budget t :=
      stepState_budget env sh t.region t.requestQueries _ _ t.state next sent hne hshape hs
    have hsum := sum_map_set budget (⟨t.region, t.requestQueries, next⟩ : Task σ)
      cfg.tasks i t ht
    have hres := reserve_recordErr cfg.egErr next.returned
    refine ⟨?_, ?_⟩
    · show (cfg.resultChan ++ sent).length +
        ((cfg.tasks.set i ⟨t.region, t.requestQueries, next⟩).map budget).sum +
        reserve (recordErr cfg.egErr next.returned) ≤ sh.capacity
      rw [List.length_append]
      omega
    · intro t2 ht2
      rcases List.mem_or_eq_of_mem_set ht2 with hmem | heq2
      · exact hgroups t2 hmem
      · rw [heq2]
        exact hin

theorem length_flatMap_ids (byRegion : List (String × List requestQuery)) :
    (byRegion.flatMap fun p => p.2.map fun q => q.RefId).length =
      (byRegion.map fun p => p.2.length).sum := by
  induction byRegion with
  | nil => rfl
  | cons p rest ih => simp [List.flatMap_cons, ih]

theorem fits_spawnAll {σ : Sig} (sh : Shared) (byRegion : List (String × List requestQuery))
    (h : (byRegion.map fun p => p.2.length).sum ≤ sh.capacity) :
    Fits sh byRegion (spawnAll byRegion : Config σ) := by
  refine ⟨?_, ?_⟩
  · have hsum : (((spawnAll byRegion : Config σ).tasks).map budget).sum =
        (byRegion.map fun p => p.2.length).sum := by
      simp only [spawnAll, List.map_map]
      rfl
    rw [hsum]
    simpa [spawnAll, reserve] using h
  · intro t ht
    simp only [spawnAll, List.mem_map] at ht
    obtain ⟨p, hp, rfl⟩ := ht
    exact hp

theorem budget_pos {σ : Sig} (t : Task σ) (h : t.state.wantsToSend = true) : 0 < budget t := by
  obtain ⟨region, rqs, state⟩ := t
  cases state with
  | emitting pending =>
    cases pending with
    | nil => simp [TaskState.wantsToSend] at h
    | cons x rest => simp [budget]
  | recovering v =>
    cases v with
    | error theErr => simp [budget]
    | other d => simp [TaskState.wantsToSend] at h
  | _ => simp [TaskState.wantsToSend] at h

theorem fits_run {σ : Sig} (env : Collaborators σ) (req : QueryDataRequest) (q0 : DataQuery)
    (byRegion : List (String × List requestQuery))
    (hnonempty : ∀ p ∈ byRegion, p.2 ≠ [])
    (hpart : List.Perm (byRegion.flatMap fun p => p.2.map fun q => q.RefId)
      (req.Queries.map fun q => q.RefID))
    (hshape : ∀ p ∈ byRegion, ∀ rs res,
      env.transformQueryResponsesToQueryResult rs p.2 q0.TimeRange.From q0.TimeRange.To =
        .ok res → res.length ≤ p.2.length)
    (schedule : List Nat) :
    Fits (sharedOf req q0) byRegion
      (runSchedule env (sharedOf req q0) (spawnAll byRegion) schedule) := by
  have hcap : (byRegion.map fun p => p.2.length).sum ≤ (sharedOf req q0).capacity := by
    rw [← length_flatMap_ids, hpart.length_eq]
    simp [sharedOf]
  exact runSchedule_invariant env (sharedOf req q0) (Fits (sharedOf req q0) byRegion)
    (fun cfg i hc => fits_step env (sharedOf req q0) byRegion
      (fun p hp => ⟨hnonempty p hp, hshape p hp⟩) cfg i hc)
    schedule _ (fits_spawnAll (sharedOf req q0) byRegion hcap)

theorem roomy_of_fits {σ : Sig} (sh : Shared) (byRegion : List (String × List requestQuery))
    (cfg : Config σ) (h : Fits sh byRegion cfg) : Roomy sh cfg := by
  intro t ht hwants
  have h1 := le_sum_map budget _ t ht
  have h2 := budget_pos t hwants
  have h3 := h.1
  omega

theorem room_of_fits {σ : Sig} (sh : Shared) (byRegion : List (String × List requestQuery))
    (cfg : Config σ) (h : Fits sh byRegion cfg) (e : GoError) (he : cfg.egErr = some e) :
    cfg.resultChan.length < sh.capacity := by
  have h3 := h.1
  rw [he] at h3
  simp only [reserve, Option.isSome_some, if_true] at h3
  omega

theorem length_wait {σ : Sig} (env : Collaborators σ) (sh : Shared) (cfg : Config σ)
    (h : cfg.resultChan.length ≤ sh.capacity) :
    (waitAndAssemble env sh cfg).resultChan.length ≤ sh.capacity := by
  unfold waitAndAssemble
  split
  · split
    · split
      · split
        · simp only [List.length_append, List.length_singleton]
          omega
        · exact h
      · exact h
    · exact h
  · exact h

/-- C9: when the region groups are non-empty and partition the queries of the
batch, and every region's shaper returns at most one entry per query of its
group, then under every schedule no closure is stopped at a send on a full
channel, the channel has a free slot for the synthetic result whenever
`eg.Wait()` returns an error, and the number of values put on `resultChan`
(tagged results, results of the recover boundary, the synthetic result) is at
most `len(req.Queries)`, the capacity of the channel; since no send blocks,
every schedule can be continued until the call returns. -/
theorem result_channel_never_overflows {σ : Sig} (env : Collaborators σ)
    (req : QueryDataRequest) (q0 : DataQuery) (rest : List DataQuery)
    (byRegion : List (String × List requestQuery))
    (hq : req.Queries = q0 :: rest) (hvalid : q0.TimeRange.From < q0.TimeRange.To)
    (hparse : env.parseQueries req.Queries q0.TimeRange.From q0.TimeRange.To = .ok byRegion)
    (hnonempty : ∀ p ∈ byRegion, p.2 ≠ [])
    (hpart : List.Perm (byRegion.flatMap fun p => p.2.map fun q => q.RefId)
      (req.Queries.map fun q => q.RefID))
    (hshape : ∀ p ∈ byRegion, ∀ rs res,
      env.transformQueryResponsesToQueryResult rs p.2 q0.TimeRange.From q0.TimeRange.To =
        .ok res → res.length ≤ p.2.length)
    (schedule : List Nat) :
    Roomy (sharedOf req q0)
      (runSchedule env (sharedOf req q0) (spawnAll byRegion) schedule) ∧
    (∀ e : GoError,
      allDone (runSchedule env (sharedOf req q0) (spawnAll byRegion) schedule) = true →
      (runSchedule env (sharedOf req q0) (spawnAll byRegion) schedule).egErr = some e →
      (runSchedule env (sharedOf req q0) (spawnAll byRegion) schedule).resultChan.length <
        req.Queries.length) ∧
    (executeTimeSeriesQuery env req schedule).resultChan.length ≤ req.Queries.length ∧
    (∃ (more : List Nat) (resp : Option QueryDataResponse) (err : Option GoError),
      (executeTimeSeriesQuery env req (schedule ++ more)).result = .returned resp err) := by
  have hne : byRegion ≠ [] := by
    intro h0
    rw [h0, hq] at hpart
    have := hpart.length_eq
    simp at this
  have hfits := fits_run env req q0 byRegion hnonempty hpart hshape
  have hcapeq : (sharedOf req q0).capacity = req.Queries.length := rfl
  refine ⟨roomy_of_fits _ byRegion _ (hfits schedule), ?_, ?_, ?_⟩
  · intro e _ he
    rw [← hcapeq]
    exact room_of_fits _ byRegion _ (hfits schedule) e he
  · rw [execute_eq env req q0 rest byRegion schedule hq hvalid hparse hne, ← hcapeq]
    apply length_wait
    have := (hfits schedule).1
    omega
  · have hnb : NeverBlocked env (sharedOf req q0) (spawnAll byRegion) :=
      fun s => roomy_of_fits _ byRegion _ (hfits s)
    obtain ⟨more, hd⟩ := finish_all env (sharedOf req q0) _
      (neverBlocked_run env (sharedOf req q0) _ schedule hnb)
    rw [← runSchedule_append] at hd
    refine ⟨more, ?_⟩
    rw [execute_eq env req q0 rest byRegion _ hq hvalid hparse hne]
    cases he : (runSchedule env (sharedOf req q0) (spawnAll byRegion)
        (schedule ++ more)).egErr with
    | none =>
      rw [wait_success env _ _ hd he]
      exact ⟨_, _, rfl⟩
    | some e =>
      obtain ⟨h1, _, h3⟩ := wait_error env (sharedOf req q0) _ e hd he
      cases hrf : errorsAsRequestFailure e with
      | true =>
        rw [h1 hrf (room_of_fits _ byRegion _ (hfits (schedule ++ more)) e he)]
        exact ⟨_, _, rfl⟩
      | false =>
        rw [h3 hrf]
        exact ⟨_, _, rfl⟩

/-- The statement C9 on the scenario in which the call for eu-west-1 fails with
a request failure after us-east-1 has sent its two results: three values are
put on the channel of capacity three. -/
theorem result_channel_never_overflows_witness :
    Roomy (sharedOf reqABC ⟨"A", ⟨0, 10⟩, ""⟩)
      (runSchedule envThrottled (sharedOf reqABC ⟨"A", ⟨0, 10⟩, ""⟩) (spawnAll groupsABC)
        firstThenOneStep) ∧
    (∀ e : GoError,
      allDone (runSchedule envThrottled (sharedOf reqABC ⟨"A", ⟨0, 10⟩, ""⟩)
        (spawnAll groupsABC) firstThenOneStep) = true →
      (runSchedule envThrottled (sharedOf reqABC ⟨"A", ⟨0, 10⟩, ""⟩) (spawnAll groupsABC)
        firstThenOneStep).egErr = some e →
      (runSchedule envThrottled (sharedOf reqABC ⟨"A", ⟨0, 10⟩, ""⟩) (spawnAll groupsABC)
        firstThenOneStep).resultChan.length < reqABC.Queries.length) ∧
    (executeTimeSeriesQuery envThrottled reqABC firstThenOneStep).resultChan.length ≤
      reqABC.Queries.length ∧
    (∃ (more : List Nat) (resp : Option QueryDataResponse) (err : Option GoError),
      (executeTimeSeriesQuery envThrottled reqABC (firstThenOneStep ++ more)).result =
        .returned resp err) :=
  result_channel_never_overflows envThrottled reqABC ⟨"A", ⟨0, 10⟩, ""⟩ _ groupsABC rfl
    (by decide) rfl
    (by
      intro p hp
      simp only [groupsABC, List.mem_cons, List.mem_singleton, List.not_mem_nil, or_false] at hp
      rcases hp with rfl | rfl <;> simp)
    (List.Perm.refl _)
    (by
      intro p _ rs res h
      have h2 : shapeEach p.2 = .ok res := h
      simp only [shapeEach, Outcome.ok.injEq] at h2
      rw [← h2]
      simp)
    firstThenOneStep

/-! ## Error returns -/

theorem recordErr_some (first : GoError) (r : Option (Option GoError)) :
    recordErr (some first) r = some first := by
  cases r with
  | none => rfl
  | some x => cases x <;> rfl

theorem recordErr_none_eq_some (r : Option (Option GoError)) (x : GoError)
    (h : recordErr none r = some x) : r = some (some x) := by
  cases r with
  | none => simp [recordErr] at h
  | some y =>
    cases y with
    | none => simp [recordErr] at h
    | some e2 =>
      simp only [recordErr, Option.some.injEq] at h
      rw [h]

/-- What a task has ahead of it after a step taken with cancellation status `c`,
seen with any status `c2`: what it had ahead with `c2`, what it had ahead with
`c` (the step that calls `executeRequest` fixes the status), or a list of
entries when the task had no error ahead. -/
theorem stepState_outlook_any {σ : Sig} (env : Collaborators σ) (sh : Shared)
    (region : String) (rqs : List requestQuery) (c room : Bool) (s next : TaskState σ)
    (sent : List responseWrapper)
    (h : stepState env sh region rqs c room s = some (next, sent)) (c2 : Bool) :
    outlook env sh rqs c2 region next = outlook env sh rqs c2 region s ∨
    outlook env sh rqs c2 region next = outlook env sh rqs c region s ∨
    ((∃ l, outlook env sh rqs c2 region next = .ok l) ∧
      ∀ (c3 : Bool) (e : GoError), outlook env sh rqs c3 region s ≠ .err e) := by
  cases s with
  | emitting pending =>
    right
    right
    refine ⟨?_, fun c3 e he => by cases he⟩
    cases pending with
    | nil =>
      simp only [stepState, Option.some.injEq, Prod.mk.injEq] at h
      exact ⟨[], by rw [← h.1]; rfl⟩
    | cons x rest =>
      cases room with
      | false => simp [stepState] at h
      | true =>
        simp only [stepState, if_true, Option.some.injEq, Prod.mk.injEq] at h
        exact ⟨rest, by rw [← h.1]; rfl⟩
  | recovering v =>
    right
    right
    refine ⟨?_, fun c3 e he => by cases he⟩
    cases v with
    | error theErr =>
      cases room with
      | false => simp [stepState] at h
      | true =>
        simp only [stepState, if_true, Option.some.injEq, Prod.mk.injEq] at h
        exact ⟨[], by rw [← h.1]; rfl⟩
    | other d =>
      simp only [stepState, Option.some.injEq, Prod.mk.injEq] at h
      exact ⟨[], by rw [← h.1]; rfl⟩
  | done err => simp [stepState] at h
  | responseParsed responses =>
    simp only [stepState, Option.some.injEq, Prod.mk.injEq] at h
    left
    rw [← h.1, outlook_advance]
    simp only [outlook]
    cases env.transformQueryResponsesToQueryResult responses rqs sh.startTime sh.endTime <;> rfl
  | requestBuilt client queries metricDataInput =>
    simp only [stepState, Option.some.injEq, Prod.mk.injEq] at h
    right
    left
    rw [← h.1, outlook_advance]
    rfl
  | _ =>
    simp only [stepState, Option.some.injEq, Prod.mk.injEq] at h
    left
    rw [← h.1, outlook_advance]
    rfl

theorem onlyFails_step {σ : Sig} (env : Collaborators σ) (sh : Shared)
    (pf : String × List requestQuery) (e : GoError) (cfg : Config σ) (i : Nat)
    (h : OnlyFails env sh pf e cfg) : OnlyFails env sh pf e (stepTask env sh cfg i) := by
  rcases stepTask_eq env sh cfg i with heq | ⟨t, next, sent, ht, hs, heq⟩
  · rw [heq]
    exact h
  · rw [heq]
    obtain ⟨hsib, hpf, herr⟩ := h
    have hany := stepState_outlook_any env sh _ _ _ _ _ _ _ hs
    have hnew : (t.region, t.requestQueries) = pf ∨
        ∀ (c : Bool) (e2 : GoError),
          outlook env sh t.requestQueries c t.region next ≠ .err e2 := by
      rcases hsib t (List.getElem?_mem ht) with hl | hr
      · exact Or.inl hl
      · right
        intro c2 e2 he
        rcases hany c2 with h1 | h1 | ⟨⟨l, h1⟩, _⟩
        · rw [h1] at he
          exact hr _ _ he
        · rw [h1] at he
          exact hr _ _ he
        · rw [h1] at he
          cases he
    have hnewpf : cfg.egErr = none → (t.region, t.requestQueries) = pf →
        outlook env sh t.requestQueries false t.region next = .err e := by
      intro h0 hkey
      have hold := hpf h0 t (List.getElem?_mem ht) hkey
      have hany2 := hany false
      rw [h0] at hany2
      rcases hany2 with h1 | h1 | ⟨_, h1⟩
      · rw [h1]
        exact hold
      · rw [h1]
        exact hold
      · exact absurd hold (h1 false e)
    refine ⟨?_, ?_, ?_⟩
    · intro t2 ht2
      rcases List.mem_or_eq_of_mem_set ht2 with hmem | heq2
      · exact hsib t2 hmem
      · rw [heq2]
        exact hnew
    · intro hnone t2 ht2 hkey
      obtain ⟨h0, _⟩ := recordErr_eq_none hnone
      rcases List.mem_or_eq_of_mem_set ht2 with hmem | heq2
      · exact hpf h0 t2 hmem hkey
      · rw [heq2] at hkey ⊢
        exact hnewpf h0 hkey
    · intro x hx
      cases hold : cfg.egErr with
      | some first =>
        have hx2 : recordErr cfg.egErr next.returned = some x := hx
        rw [hold, recordErr_some] at hx2
        rw [← Option.some.inj hx2]
        exact herr first hold
      | none =>
        have hx2 : recordErr cfg.egErr next.returned = some x := hx
        rw [hold] at hx2
        have hret := recordErr_none_eq_some _ _ hx2
        have hout := outlook_of_returned env sh t.region t.requestQueries false next x hret
        rcases hnew with hkey | hr
        · rw [hnewpf hold hkey] at hout
          cases hout
          rfl
        · exact absurd hout (hr false x)

theorem onlyFails_spawnAll {σ : Sig} (env : Collaborators σ) (sh : Shared)
    (byRegion : List (String × List requestQuery)) (pf : String × List requestQuery)
    (e : GoError) (hfail : taskOutcome env sh pf.1 pf.2 = .err e)
    (hothers : ∀ p ∈ byRegion, p = pf ∨
      ∀ (c : Bool) (e2 : GoError), outlook env sh p.2 c p.1 .dispatched ≠ .err e2) :
    OnlyFails env sh pf e (spawnAll byRegion) := by
  refine ⟨?_, ?_, ?_⟩
  · intro t ht
    simp only [spawnAll, List.mem_map] at ht
    obtain ⟨p, hp, rfl⟩ := ht
    rcases hothers p hp with h1 | h1
    · exact Or.inl h1
    · exact Or.inr h1
  · intro _ t ht hkey
    simp only [spawnAll, List.mem_map] at ht
    obtain ⟨p, hp, rfl⟩ := ht
    have hp2 : p = pf := hkey
    subst hp2
    exact hfail
  · intro x hx
    cases hx

theorem map_set_same {α β : Type} (f : α → β) (t2 : α) :
    ∀ (l : List α) (i : Nat) (t : α), l[i]? = some t → f t2 = f t →
      (l.set i t2).map f = l.map f := by
  intro l
  induction l with
  | nil => intro i t h; simp at h
  | cons a rest ih =>
    intro i t h hf
    cases i with
    | zero =>
      simp only [List.getElem?_cons_zero, Option.some.injEq] at h
      subst h
      simp [hf]
    | succ j =>
      simp only [List.getElem?_cons_succ] at h
      simp [ih j t h hf]

/-- The tasks keep the regions and the queries they were started with. -/
theorem groups_run {σ : Sig} (env : Collaborators σ) (sh : Shared)
    (byRegion : List (String × List requestQuery)) (schedule : List Nat) :
    (runSchedule env sh (spawnAll byRegion) schedule).tasks.map
      (fun t => (t.region, t.requestQueries)) = byRegion := by
  apply runSchedule_invariant env sh
    (fun cfg => cfg.tasks.map (fun t => (t.region, t.requestQueries)) = byRegion)
  · intro cfg i h
    rcases stepTask_eq env sh cfg i with heq | ⟨t, next, sent, ht, _, heq⟩
    · rw [heq]
      exact h
    · rw [heq]
      show (cfg.tasks.set i _).map _ = _
      rw [map_set_same (fun t : Task σ => (t.region, t.requestQueries))
        ⟨t.region, t.requestQueries, next⟩ cfg.tasks i t ht rfl]
      exact h
  · show (byRegion.map _).map _ = byRegion
    rw [List.map_map]
    exact List.map_id byRegion

/-- When only the closures of one group can fail, with the error `e`, and all
closures have returned, the errgroup holds `e`. -/
theorem egErr_of_onlyFails {σ : Sig} (env : Collaborators σ) (sh : Shared)
    (byRegion : List (String × List requestQuery)) (pf : String × List requestQuery)
    (e : GoError) (hpf : pf ∈ byRegion)
    (hfail : taskOutcome env sh pf.1 pf.2 = .err e)
    (hothers : ∀ p ∈ byRegion, p = pf ∨
      ∀ (c : Bool) (e2 : GoError), outlook env sh p.2 c p.1 .dispatched ≠ .err e2)
    (schedule : List Nat)
    (hd : allDone (runSchedule env sh (spawnAll byRegion) schedule) = true) :
    (runSchedule env sh (spawnAll byRegion) schedule).egErr = some e := by
  have hof : OnlyFails env sh pf e (runSchedule env sh (spawnAll byRegion) schedule) :=
    runSchedule_invariant env sh (OnlyFails env sh pf e)
      (fun cfg i hc => onlyFails_step env sh pf e cfg i hc) schedule _
      (onlyFails_spawnAll env sh byRegion pf e hfail hothers)
  cases hg : (runSchedule env sh (spawnAll byRegion) schedule).egErr with
  | some x => rw [hof.2.2 x hg]
  | none =>
    exfalso
    have hkeys := groups_run env sh byRegion schedule
    rw [← hkeys] at hpf
    obtain ⟨t, ht, hkey⟩ := List.mem_map.mp hpf
    have hout := hof.2.1 hg t ht hkey
    simp only [allDone, List.all_eq_true] at hd
    have htd := hd t ht
    obtain ⟨j, hj⟩ := List.mem_iff_getElem?.mp ht
    have hrec := (errRecorded_run env sh byRegion schedule).1 hg j t
    cases hst : t.state with
    | done x =>
      cases x with
      | none =>
        rw [hst] at hout
        cases hout
      | some e2 =>
        exact hrec e2 hj (by rw [hst]; rfl)
    | _ => rw [hst] at htd; cases htd

/-- C2: for a batch that passes validation and whose region groups are non-empty
and partition its queries (every shaper returning at most one entry per query of
its group), when the closure of one region returns the error `e` from one of its
six stages and no other closure returns an error, whether or not `ectx` is
cancelled when it calls `executeRequest`, every return of the call is `e`
together with a nil response, whatever the other closures put on the channel,
and every schedule can be continued until the call returns. -/
theorem single_error_is_returned {σ : Sig} (env : Collaborators σ) (req : QueryDataRequest)
    (q0 : DataQuery) (rest : List DataQuery) (byRegion : List (String × List requestQuery))
    (hq : req.Queries = q0 :: rest) (hvalid : q0.TimeRange.From < q0.TimeRange.To)
    (hparse : env.parseQueries req.Queries q0.TimeRange.From q0.TimeRange.To = .ok byRegion)
    (hnonempty : ∀ p ∈ byRegion, p.2 ≠ [])
    (hpart : List.Perm (byRegion.flatMap fun p => p.2.map fun q => q.RefId)
      (req.Queries.map fun q => q.RefID))
    (hshape : ∀ p ∈ byRegion, ∀ rs res,
      env.transformQueryResponsesToQueryResult rs p.2 q0.TimeRange.From q0.TimeRange.To =
        .ok res → res.length ≤ p.2.length)
    (pf : String × List requestQuery) (e : GoError) (hpf : pf ∈ byRegion)
    (hfail : taskOutcome env (sharedOf req q0) pf.1 pf.2 = .err e)
    (hothers : ∀ p ∈ byRegion, p = pf ∨
      ∀ (c : Bool) (e2 : GoError),
        outlook env (sharedOf req q0) p.2 c p.1 .dispatched ≠ .err e2) :
    (∀ (schedule : List Nat) (resp : Option QueryDataResponse) (err : Option GoError),
      (executeTimeSeriesQuery env req schedule).result = .returned resp err →
      resp = none ∧ err = some e) ∧
    (∀ schedule : List Nat, ∃ more : List Nat,
      (executeTimeSeriesQuery env req (schedule ++ more)).result =
        .returned none (some e)) := by
  have hne : byRegion ≠ [] := List.ne_nil_of_mem hpf
  have hfits := fits_run env req q0 byRegion hnonempty hpart hshape
  constructor
  · intro schedule resp err h
    rw [execute_eq env req q0 rest byRegion schedule hq hvalid hparse hne] at h
    obtain ⟨hd, hcase⟩ := wait_returned env _ _ _ _ h
    have hg := egErr_of_onlyFails env (sharedOf req q0) byRegion pf e hpf hfail hothers
      schedule hd
    rcases hcase with ⟨h0, _, _⟩ | ⟨x, hx, hr, herr⟩
    · rw [hg] at h0
      cases h0
    · rw [hg] at hx
      cases hx
      exact ⟨hr, herr⟩
  · intro schedule
    have hnb : NeverBlocked env (sharedOf req q0) (spawnAll byRegion) :=
      fun s => roomy_of_fits _ byRegion _ (hfits s)
    obtain ⟨more, hd⟩ := finish_all env (sharedOf req q0) _
      (neverBlocked_run env (sharedOf req q0) _ schedule hnb)
    rw [← runSchedule_append] at hd
    have hg := egErr_of_onlyFails env (sharedOf req q0) byRegion pf e hpf hfail hothers
      (schedule ++ more) hd
    refine ⟨more, ?_⟩
    rw [execute_eq env req q0 rest byRegion _ hq hvalid hparse hne]
    obtain ⟨h1, _, h3⟩ := wait_error env (sharedOf req q0) _ e hd hg
    cases hrf : errorsAsRequestFailure e with
    | true => rw [h1 hrf (room_of_fits _ byRegion _ (hfits (schedule ++ more)) e hg)]
    | false => rw [h3 hrf]

/-- The statement C2 on the scenario of the specification when the remote call
for eu-west-1 fails with a request failure (fourth stage), and when the result
shaper of eu-west-1 fails (sixth stage). -/
theorem single_error_is_returned_witness :
    (executeTimeSeriesQuery envCallFails reqABC firstThenSixSteps).result =
      .returned none (some (.requestFailure "Throttling")) ∧
    (executeTimeSeriesQuery envShapeFails reqABC firstThenSixSteps).result =
      .returned none (some (.plain "no frames")) ∧
    ((∀ (schedule : List Nat) (resp : Option QueryDataResponse) (err : Option GoError),
        (executeTimeSeriesQuery envCallFails reqABC schedule).result = .returned resp err →
        resp = none ∧ err = some (.requestFailure "Throttling")) ∧
      (∀ schedule : List Nat, ∃ more : List Nat,
        (executeTimeSeriesQuery envCallFails reqABC (schedule ++ more)).result =
          .returned none (some (.requestFailure "Throttling")))) ∧
    ((∀ (schedule : List Nat) (resp : Option QueryDataResponse) (err : Option GoError),
        (executeTimeSeriesQuery envShapeFails reqABC schedule).result = .returned resp err →
        resp = none ∧ err = some (.plain "no frames")) ∧
      (∀ schedule : List Nat, ∃ more : List Nat,
        (executeTimeSeriesQuery envShapeFails reqABC (schedule ++ more)).result =
          .returned none (some (.plain "no frames")))) :=
  ⟨rfl, rfl, single_error_is_returned envCallFails reqABC ⟨"A", ⟨0, 10⟩, ""⟩ _ groupsABC rfl
      (by decide) rfl
      (by
        intro p hp
        simp only [groupsABC, List.mem_cons, List.mem_singleton, List.not_mem_nil,
          or_false] at hp
        rcases hp with rfl | rfl <;> simp)
      (List.Perm.refl _)
      (by
        intro p _ rs res h
        have h2 : shapeEach p.2 = .ok res := h
        simp only [shapeEach, Outcome.ok.injEq] at h2
        rw [← h2]
        simp)
      ("eu-west-1", [⟨"C", "eu-west-1", "c"⟩]) (.requestFailure "Throttling")
      (List.mem_cons_of_mem _ (List.mem_cons_self _ _)) rfl
      (by
        intro p hp
        simp only [groupsABC, List.mem_cons, List.mem_singleton, List.not_mem_nil,
          or_false] at hp
        rcases hp with rfl | rfl
        · right
          intro c e2 h
          have h2 : outlook envCallFails (sharedOf reqABC ⟨"A", ⟨0, 10⟩, ""⟩)
              [⟨"A", "us-east-1", "a"⟩, ⟨"B", "us-east-1", "b"⟩] c "us-east-1" .dispatched =
              .ok [("A", ⟨["a"], none⟩), ("B", ⟨["b"], none⟩)] := rfl
          rw [h2] at h
          cases h
        · exact Or.inl rfl),
   single_error_is_returned envShapeFails reqABC ⟨"A", ⟨0, 10⟩, ""⟩ _ groupsABC rfl
      (by decide) rfl
      (by
        intro p hp
        simp only [groupsABC, List.mem_cons, List.mem_singleton, List.not_mem_nil,
          or_false] at hp
        rcases hp with rfl | rfl <;> simp)
      (List.Perm.refl _)
      (by
        intro p hp rs res h
        simp only [groupsABC, List.mem_cons, List.mem_singleton, List.not_mem_nil,
          or_false] at hp
        rcases hp with rfl | rfl
        · have h2 : shapeEach [⟨"A", "us-east-1", "a"⟩, ⟨"B", "us-east-1", "b"⟩] =
              .ok res := h
          simp only [shapeEach, Outcome.ok.injEq] at h2
          rw [← h2]
          simp
        · have h2 : (Outcome.err (.plain "no frames") :
              Outcome (List (String × DataResponse))) = .ok res := h
          cases h2)
      ("eu-west-1", [⟨"C", "eu-west-1", "c"⟩]) (.plain "no frames")
      (List.mem_cons_of_mem _ (List.mem_cons_self _ _)) rfl
      (by
        intro p hp
        simp only [groupsABC, List.mem_cons, List.mem_singleton, List.not_mem_nil,
          or_false] at hp
        rcases hp with rfl | rfl
        · right
          intro c e2 h
          have h2 : outlook envShapeFails (sharedOf reqABC ⟨"A", ⟨0, 10⟩, ""⟩)
              [⟨"A", "us-east-1", "a"⟩, ⟨"B", "us-east-1", "b"⟩] c "us-east-1" .dispatched =
              .ok [("A", ⟨["a"], none⟩), ("B", ⟨["b"], none⟩)] := rfl
          rw [h2] at h
          cases h
        · exact Or.inl rfl)⟩

/-- C8: for a batch whose region groups are non-empty and partition its queries
(every shaper returning at most one entry per query of its group), when every
closure has returned and the error that `eg.Wait()` returns is `e`, that error
was returned by one of the closures; if `e` is or wraps a request failure, the
call puts exactly one more value on the channel, with an empty RefId and the
error "metric request error: " followed by the quoted `e`, and returns `e`
unchanged with a nil response; if `e` is not a request failure, nothing more is
put on the channel and the call returns `e` with a nil response. -/
theorem request_failure_result {σ : Sig} (env : Collaborators σ) (req : QueryDataRequest)
    (q0 : DataQuery) (rest : List DataQuery) (byRegion : List (String × List requestQuery))
    (hq : req.Queries = q0 :: rest) (hvalid : q0.TimeRange.From < q0.TimeRange.To)
    (hparse : env.parseQueries req.Queries q0.TimeRange.From q0.TimeRange.To = .ok byRegion)
    (hnonempty : ∀ p ∈ byRegion, p.2 ≠ [])
    (hpart : List.Perm (byRegion.flatMap fun p => p.2.map fun q => q.RefId)
      (req.Queries.map fun q => q.RefID))
    (hshape : ∀ p ∈ byRegion, ∀ rs res,
      env.transformQueryResponsesToQueryResult rs p.2 q0.TimeRange.From q0.TimeRange.To =
        .ok res → res.length ≤ p.2.length)
    (schedule : List Nat) (e : GoError)
    (hd : allDone (runSchedule env (sharedOf req q0) (spawnAll byRegion) schedule) = true)
    (he : (runSchedule env (sharedOf req q0) (spawnAll byRegion) schedule).egErr = some e) :
    (∃ (j : Nat) (t : Task σ),
      (runSchedule env (sharedOf req q0) (spawnAll byRegion) schedule).tasks[j]? = some t ∧
      t.state.returned = some (some e)) ∧
    (errorsAsRequestFailure e = true →
      (executeTimeSeriesQuery env req schedule).result = .returned none (some e) ∧
      (executeTimeSeriesQuery env req schedule).resultChan =
        (runSchedule env (sharedOf req q0) (spawnAll byRegion) schedule).resultChan ++
          [⟨⟨[], some (.plain ("metric request error: " ++ env.quote e.Error))⟩, ""⟩]) ∧
    (errorsAsRequestFailure e = false →
      (executeTimeSeriesQuery env req schedule).result = .returned none (some e) ∧
      (executeTimeSeriesQuery env req schedule).resultChan =
        (runSchedule env (sharedOf req q0) (spawnAll byRegion) schedule).resultChan) := by
  have hne : byRegion ≠ [] := by
    intro h0
    rw [h0, hq] at hpart
    have := hpart.length_eq
    simp at this
  have hroom := room_of_fits _ byRegion _
    (fits_run env req q0 byRegion hnonempty hpart hshape schedule) e he
  obtain ⟨h1, _, h3⟩ := wait_error env (sharedOf req q0) _ e hd he
  refine ⟨(errRecorded_run env (sharedOf req q0) byRegion schedule).2 e he, ?_, ?_⟩
  · intro hrf
    rw [execute_eq env req q0 rest byRegion schedule hq hvalid hparse hne, h1 hrf hroom]
    exact ⟨rfl, rfl⟩
  · intro hrf
    rw [execute_eq env req q0 rest byRegion schedule hq hvalid hparse hne, h3 hrf]
    exact ⟨rfl, rfl⟩

/-- The statement C8 on the scenario of the specification: the remote call for
eu-west-1 fails with a request failure after us-east-1 has sent its results; and
on the scenario in which the shaper of eu-west-1 fails with another error. -/
theorem request_failure_result_witness :
    ((executeTimeSeriesQuery envCallFails reqABC firstThenSixSteps).result =
        .returned none (some (.requestFailure "Throttling")) ∧
      (executeTimeSeriesQuery envCallFails reqABC firstThenSixSteps).resultChan =
        [⟨⟨["a"], none⟩, "A"⟩, ⟨⟨["b"], none⟩, "B"⟩,
         ⟨⟨[], some (.plain "metric request error: <Throttling>")⟩, ""⟩]) ∧
    ((executeTimeSeriesQuery envShapeFails reqABC firstThenSixSteps).result =
        .returned none (some (.plain "no frames")) ∧
      (executeTimeSeriesQuery envShapeFails reqABC firstThenSixSteps).resultChan =
        [⟨⟨["a"], none⟩, "A"⟩, ⟨⟨["b"], none⟩, "B"⟩]) :=
  ⟨(request_failure_result envCallFails reqABC ⟨"A", ⟨0, 10⟩, ""⟩ _ groupsABC rfl (by decide)
      rfl
      (by
        intro p hp
        simp only [groupsABC, List.mem_cons, List.mem_singleton, List.not_mem_nil,
          or_false] at hp
        rcases hp with rfl | rfl <;> simp)
      (List.Perm.refl _)
      (by
        intro p _ rs res h
        have h2 : shapeEach p.2 = .ok res := h
        simp only [shapeEach, Outcome.ok.injEq] at h2
        rw [← h2]
        simp)
      firstThenSixSteps (.requestFailure "Throttling") rfl rfl).2.1 rfl,
   (request_failure_result envShapeFails reqABC ⟨"A", ⟨0, 10⟩, ""⟩ _ groupsABC rfl (by decide)
      rfl
      (by
        intro p hp
        simp only [groupsABC, List.mem_cons, List.mem_singleton, List.not_mem_nil,
          or_false] at hp
        rcases hp with rfl | rfl <;> simp)
      (List.Perm.refl _)
      (by
        intro p hp rs res h
        simp only [groupsABC, List.mem_cons, List.mem_singleton, List.not_mem_nil,
          or_false] at hp
        rcases hp with rfl | rfl
        · have h2 : shapeEach [⟨"A", "us-east-1", "a"⟩, ⟨"B", "us-east-1", "b"⟩] =
              .ok res := h
          simp only [shapeEach, Outcome.ok.injEq] at h2
          rw [← h2]
          simp
        · have h2 : (Outcome.err (.plain "no frames") :
              Outcome (List (String × DataResponse))) = .ok res := h
          cases h2)
      firstThenSixSteps (.plain "no frames") rfl rfl).2.2 rfl⟩

end CloudWatch
